import Mathlib

set_option maxHeartbeats 1000000
set_option maxRecDepth 2000000
set_option exponentiation.threshold 1100

set_option allowUnsafeReducibility true in
attribute [semireducible] Rat.add Rat.mul Rat.sub Rat.inv Rat.ofScientific

namespace KdlRust

/-! ## Model of `f64` scores

Scores in the search (`tree_search.rs`, `player.rs`) are `f64`.  The embedding
models the float values arising there with exact rational arithmetic, plus the
two infinities (`f64::NEG_INFINITY` comes from
`AppraisedPlayerTurn::empty_minimum`, `f64::INFINITY` from negating it).
`f64::MAX` is the exact rational `2^1024 - 2^971`.  NaN does not arise in the
modelled code paths. -/

/-- Exact value of the finite float constant `f64::MAX`. -/
def f64MAX : ℚ := ((2 ^ 1024 - 2 ^ 971 : ℕ) : ℚ)

/-- A modelled `f64` score: a finite rational or one of the two infinities. -/
inductive Fl : Type where
  | negInf : Fl
  | fin : ℚ → Fl
  | posInf : Fl
deriving DecidableEq

/-- Comparison of modelled scores, mirroring `f64` comparison
(`compare_f64` in `tree_search.rs`; NaN never arises here). -/
def Fl.le : Fl → Fl → Prop
  | .negInf, _ => True
  | .fin _, .negInf => False
  | .fin a, .fin b => a ≤ b
  | .fin _, .posInf => True
  | .posInf, .posInf => True
  | .posInf, .negInf => False
  | .posInf, .fin _ => False

instance : LE Fl := ⟨Fl.le⟩

instance Fl.decidableLe : ∀ a b : Fl, Decidable (a ≤ b)
  | .negInf, .negInf => isTrue trivial
  | .negInf, .fin _ => isTrue trivial
  | .negInf, .posInf => isTrue trivial
  | .fin _, .negInf => isFalse (fun h => h)
  | .fin a, .fin b => inferInstanceAs (Decidable (a ≤ b))
  | .fin _, .posInf => isTrue trivial
  | .posInf, .posInf => isTrue trivial
  | .posInf, .negInf => isFalse (fun h => h)
  | .posInf, .fin _ => isFalse (fun h => h)

instance : LinearOrder Fl where
  le_refl a := by
    cases a with
    | negInf => exact trivial
    | fin q => exact le_refl q
    | posInf => exact trivial
  le_trans a b c h1 h2 := by
    cases a with
    | negInf => exact trivial
    | fin qa =>
      cases c with
      | negInf =>
        cases b with
        | negInf => exact h1
        | fin qb => exact h2
        | posInf => exact h2
      | fin qc =>
        cases b with
        | negInf => exact h1.elim
        | fin qb => exact le_trans (show qa ≤ qb from h1) (show qb ≤ qc from h2)
        | posInf => exact h2.elim
      | posInf => exact trivial
    | posInf =>
      cases b with
      | negInf => exact h1.elim
      | fin qb => exact h1.elim
      | posInf =>
        cases c with
        | negInf => exact h2
        | fin qc => exact h2
        | posInf => exact trivial
  le_antisymm a b h1 h2 := by
    cases a with
    | negInf =>
      cases b with
      | negInf => rfl
      | fin qb => exact h2.elim
      | posInf => exact h2.elim
    | fin qa =>
      cases b with
      | negInf => exact h1.elim
      | fin qb =>
        exact congrArg Fl.fin (le_antisymm (show qa ≤ qb from h1) (show qb ≤ qa from h2))
      | posInf => exact h2.elim
    | posInf =>
      cases b with
      | negInf => exact h1.elim
      | fin qb => exact h1.elim
      | posInf => rfl
  le_total a b := by
    cases a with
    | negInf => exact Or.inl trivial
    | fin qa =>
      cases b with
      | negInf => exact Or.inr trivial
      | fin qb =>
        rcases le_total qa qb with h | h
        · exact Or.inl h
        · exact Or.inr h
      | posInf => exact Or.inl trivial
    | posInf =>
      cases b with
      | negInf => exact Or.inr trivial
      | fin qb => exact Or.inr trivial
      | posInf => exact Or.inl trivial
  decidableLE := inferInstance

/-- Float negation (`hypo_turn.appraisal *= -1.0` in `tree_search.rs`). -/
def Fl.neg : Fl → Fl
  | .negInf => .posInf
  | .fin q => .fin (-q)
  | .posInf => .negInf

/-- `TreeSearch::ALPHA_INITIAL = rule_helper::HEURISTIC_SCORE_LOSS = f64::MIN`. -/
def ALPHA_INITIAL : Fl := Fl.fin (-f64MAX)

/-- `TreeSearch::BETA_INITIAL = rule_helper::HEURISTIC_SCORE_WIN = f64::MAX`. -/
def BETA_INITIAL : Fl := Fl.fin f64MAX

/-! ## Generic game interface and tree search (`tree_search.rs`)

`TreeSearch` in `tree_search.rs` is generic over a `GameState` trait; the
embedding mirrors that with an explicit interface record.  The `&mut usize`
states-visited counter is modelled by returning the number of states visited
by each (sub)call; cancellation tokens are polled but never written during a
search, so a token is modelled by the constant boolean it returns. -/

/-- The `GameState` + `AppraisalState` trait interface from `tree_search.rs`
and `player.rs`, as an explicit record of operations on states `σ` and turns
`τ`.  Player ids are `i32`, modelled as `Int`. -/
structure GameIfc (σ τ : Type) where
  current_player_id : σ → Int
  num_players : σ → Nat
  has_winner : σ → Bool
  winner : σ → Int
  possible_turns : σ → List τ
  after_turn : σ → τ → σ
  heuristic_score : σ → Int → Fl
  prev_turn : σ → Option τ

/-- `AppraisedPlayerTurn` from `player.rs`. -/
structure AppraisedPlayerTurn (τ σ : Type) where
  appraisal : Fl
  turn : Option τ
  ending_state : Option σ
deriving DecidableEq

/-- `AppraisedPlayerTurn::empty_minimum()`: appraisal `f64::NEG_INFINITY`,
no turn, no ending state. -/
def AppraisedPlayerTurn.empty_minimum {τ σ : Type} : AppraisedPlayerTurn τ σ :=
  ⟨Fl.negInf, none, none⟩

/-- `AppraisedPlayerTurn::from_state(analysis_player_id, state)`: the
appraisal is the state's heuristic score for that player and the turn is the
state's `prev_turn()`. -/
def GameIfc.from_state {σ τ : Type} (G : GameIfc σ τ) (analysis_player_id : Int)
    (s : σ) : AppraisedPlayerTurn τ σ :=
  ⟨G.heuristic_score s analysis_player_id, G.prev_turn s, some s⟩

/-- Insert `x` after every element `y` with `le y x` in an already sorted
list: the insertion step of a stable insertion sort. -/
def insert_sorted {α : Type} (le : α → α → Bool) (x : α) : List α → List α
  | [] => [x]
  | y :: ys => if le y x then y :: insert_sorted le x ys else x :: y :: ys

/-- A stable sort with respect to the total boolean comparison `le`.
`Vec::sort_by` in Rust is stable, and for a total preorder comparator any two
stable sorts agree, so this is extensionally the sort the Rust code performs. -/
def stable_sort {α : Type} (le : α → α → Bool) (l : List α) : List α :=
  l.foldl (fun acc x => insert_sorted le x acc) []

/-- The comparator used to pre-sort child states in
`find_best_turn_two_players` when `analysis_level > 1`:
`compare_scores(a.score, b.score, false) = compare_f64(b.score, a.score)`,
i.e. a stable sort descending by the mover's heuristic score. -/
def child_sort_le {σ τ : Type} (G : GameIfc σ τ) (curr_player_id : Int)
    (a b : σ) : Bool :=
  decide (G.heuristic_score b curr_player_id ≤ G.heuristic_score a curr_player_id)

/-- The sibling loop of `find_best_turn_two_players` (`tree_search.rs`
lines 238-273): negamax update with alpha-beta cutoff and the cancellation
check at the end of each iteration.  `recur` evaluates a child at a window. -/
def find_best_turn_two_players_go {σ τ : Type} (G : GameIfc σ τ)
    (cancelled : Bool) (recur : σ → Fl → Fl → AppraisedPlayerTurn τ σ × Nat)
    (curr_player_id : Int) (beta : Fl) :
    List σ → AppraisedPlayerTurn τ σ → Fl → Nat → AppraisedPlayerTurn τ σ × Nat
  | [], best, _, n => (best, n)
  | child :: rest, best, alpha, n =>
    let child_player_id := G.current_player_id child
    let child_turn := G.prev_turn child
    let child_is_us := decide (curr_player_id = child_player_id)
    let child_alpha := if child_is_us then alpha else Fl.neg beta
    let child_beta := if child_is_us then beta else Fl.neg alpha
    let res := recur child child_alpha child_beta
    let hypo :=
      if child_is_us then res.1
      else { res.1 with appraisal := Fl.neg res.1.appraisal }
    let n' := n + res.2
    if best.appraisal < hypo.appraisal then
      let best' := { hypo with turn := child_turn }
      if alpha < best'.appraisal then
        if beta ≤ best'.appraisal then (best', n')
        else if cancelled then (best', n')
        else find_best_turn_two_players_go G cancelled recur curr_player_id beta
          rest best' best'.appraisal n'
      else if cancelled then (best', n')
      else find_best_turn_two_players_go G cancelled recur curr_player_id beta
        rest best' alpha n'
    else if cancelled then (best, n')
    else find_best_turn_two_players_go G cancelled recur curr_player_id beta
      rest best alpha n'

/-- `find_best_turn_two_players` (`tree_search.rs` lines 203-276): negamax
alpha-beta with heuristic pre-sorting of children at `analysis_level > 1`.
The analysis level is a nonnegative depth limit, modelled as `Nat`. -/
def find_best_turn_two_players {σ τ : Type} (G : GameIfc σ τ)
    (cancelled : Bool) :
    Nat → σ → Fl → Fl → AppraisedPlayerTurn τ σ × Nat
  | 0, s, _, _ => (G.from_state (G.current_player_id s) s, 1)
  | (L + 1), s, alpha, beta =>
    if G.has_winner s then (G.from_state (G.current_player_id s) s, 1)
    else
      let curr := G.current_player_id s
      let child_states := (G.possible_turns s).map (G.after_turn s)
      let child_states :=
        if 0 < L then stable_sort (child_sort_le G curr) child_states
        else child_states
      find_best_turn_two_players_go G cancelled
        (fun ch ca cb => find_best_turn_two_players G cancelled L ch ca cb)
        curr beta child_states AppraisedPlayerTurn.empty_minimum alpha 1

/-- The sibling loop of `find_best_turn_many_players` (`tree_search.rs`
lines 167-198): plain maximization, re-scoring the recursive appraisal via
`heuristic_score(curr_player_id)` on the ending state when the child's active
player differs, breaking early when the ending state's winner is the analysis
player, and polling cancellation at the end of each iteration. -/
def find_best_turn_many_players_go {σ τ : Type} (G : GameIfc σ τ)
    (cancelled : Bool) (recur : σ → AppraisedPlayerTurn τ σ × Nat)
    (curr_player_id analysis_player_id : Int) :
    List σ → AppraisedPlayerTurn τ σ → Nat → AppraisedPlayerTurn τ σ × Nat
  | [], best, n => (best, n)
  | child :: rest, best, n =>
    let child_player_id := G.current_player_id child
    let child_turn := G.prev_turn child
    let res := recur child
    let hypo :=
      if curr_player_id = child_player_id then res.1
      else
        match res.1.ending_state with
        | some es => { res.1 with appraisal := G.heuristic_score es curr_player_id }
        | none => res.1
    let n' := n + res.2
    if best.appraisal < hypo.appraisal then
      let best' := { hypo with turn := child_turn }
      let win_break :=
        match best'.ending_state with
        | some es => decide (G.winner es = analysis_player_id)
        | none => false
      if win_break then (best', n')
      else if cancelled then (best', n')
      else find_best_turn_many_players_go G cancelled recur curr_player_id
        analysis_player_id rest best' n'
    else if cancelled then (best, n')
    else find_best_turn_many_players_go G cancelled recur curr_player_id
      analysis_player_id rest best n'

/-- `find_best_turn_many_players` (`tree_search.rs` lines 146-201). -/
def find_best_turn_many_players {σ τ : Type} (G : GameIfc σ τ)
    (cancelled : Bool) :
    Nat → Int → σ → AppraisedPlayerTurn τ σ × Nat
  | 0, analysis_player_id, s => (G.from_state analysis_player_id s, 1)
  | (L + 1), analysis_player_id, s =>
    if G.has_winner s then (G.from_state analysis_player_id s, 1)
    else
      let curr := G.current_player_id s
      let child_states := (G.possible_turns s).map (G.after_turn s)
      find_best_turn_many_players_go G cancelled
        (fun ch => find_best_turn_many_players G cancelled L curr ch)
        curr analysis_player_id child_states AppraisedPlayerTurn.empty_minimum 1

/-- `TreeSearch::find_best_turn` (`tree_search.rs` lines 109-144), for the
serial `parallelization == 1` path: dispatch on the player count, with the
two-player variant seeded with `(ALPHA_INITIAL, BETA_INITIAL)`.  The returned
`Nat` is the final value of the `num_states_visited` out-parameter (reset to 0
on entry, so it equals the number of states visited by this call). -/
def find_best_turn {σ τ : Type} (G : GameIfc σ τ) (cancelled : Bool)
    (s : σ) (analysis_level : Nat) : AppraisedPlayerTurn τ σ × Nat :=
  if G.num_players s = 2 then
    find_best_turn_two_players G cancelled analysis_level s ALPHA_INITIAL BETA_INITIAL
  else
    find_best_turn_many_players G cancelled analysis_level (G.current_player_id s) s

/-- Modelled from the spec: the sibling loop of an unpruned full minimax
search ("Two-player alpha-beta search at a fixed depth returns the same chosen
move and appraisal as an unpruned full minimax search at that depth"): every
child is evaluated with no window, no cutoff, no pre-sorting and no
cancellation; the negation across player changes and the strict-improvement
update are as in the alpha-beta variant. -/
def minimax_two_players_spec_go {σ τ : Type} (G : GameIfc σ τ)
    (recur : σ → AppraisedPlayerTurn τ σ × Nat) (curr_player_id : Int) :
    List σ → AppraisedPlayerTurn τ σ → Nat → AppraisedPlayerTurn τ σ × Nat
  | [], best, n => (best, n)
  | child :: rest, best, n =>
    let child_player_id := G.current_player_id child
    let child_turn := G.prev_turn child
    let res := recur child
    let hypo :=
      if curr_player_id = child_player_id then res.1
      else { res.1 with appraisal := Fl.neg res.1.appraisal }
    let n' := n + res.2
    if best.appraisal < hypo.appraisal then
      minimax_two_players_spec_go G recur curr_player_id rest
        { hypo with turn := child_turn } n'
    else
      minimax_two_players_spec_go G recur curr_player_id rest best n'

/-- Modelled from the spec: unpruned full minimax to a fixed depth, the
reference point of the claim that two-player alpha-beta "returns the same
chosen move and appraisal as an unpruned full minimax search at that depth". -/
def minimax_two_players_spec {σ τ : Type} (G : GameIfc σ τ) :
    Nat → σ → AppraisedPlayerTurn τ σ × Nat
  | 0, s => (G.from_state (G.current_player_id s) s, 1)
  | (L + 1), s =>
    if G.has_winner s then (G.from_state (G.current_player_id s) s, 1)
    else
      let curr := G.current_player_id s
      let child_states := (G.possible_turns s).map (G.after_turn s)
      minimax_two_players_spec_go G
        (fun ch => minimax_two_players_spec G L ch)
        curr child_states AppraisedPlayerTurn.empty_minimum 1

/-- The child's contribution to its parent's maximization in the two-player
search: its minimax value, negated when its active player differs from the
parent's. -/
def child_value {σ τ : Type} (G : GameIfc σ τ) (curr_player_id : Int)
    (v : Fl) (child : σ) : Fl :=
  if curr_player_id = G.current_player_id child then v else Fl.neg v

/-- The true negamax value of a state at a depth: heuristic score of the
current player at the leaves, maximum of child contributions elsewhere
(`Fl.negInf` when there are no children, matching `empty_minimum`). -/
def minimax_value {σ τ : Type} (G : GameIfc σ τ) : Nat → σ → Fl
  | 0, s => G.heuristic_score s (G.current_player_id s)
  | (L + 1), s =>
    if G.has_winner s then G.heuristic_score s (G.current_player_id s)
    else
      (((G.possible_turns s).map (G.after_turn s)).map
        (fun ch => child_value G (G.current_player_id s) (minimax_value G L ch) ch)).foldr
        max Fl.negInf

/-! ## Board (`board.rs`)

Room ids are `usize`, modelled as `Nat`.  Matrices are `Vec<Vec<_>>`,
modelled as lists of lists read through `getD` with the inner default of the
element type; the modelled code never reads out of bounds on the boards the
claims quantify over.  The `HashMap` of rooms, adjacency counts, the
stranger-loop ("ambush") map and the board-file loader are not needed by any
claim and are not modelled. -/

/-- `positive_remainder` (`board.rs` lines 435-443).  Rust `%` on `i32` is the
truncated remainder, `Int.tmod`. -/
def positive_remainder (x : Int) (modulus : Nat) : Nat :=
  let m : Int := (modulus : Int)
  let remainder := Int.tmod x m
  if 0 ≤ remainder then remainder.toNat else (remainder + m).toNat

/-- `Board::next_room_id` (`board.rs` lines 272-279).  The Rust code panics
when `room_id` is absent from `room_ids`; the embedding is total
(`List.indexOf` returns the length, `getD` the default) and is only used on
the member case the claims quantify over. -/
def next_room_id (room_id : Nat) (delta : Int) (room_ids : List Nat) : Nat :=
  let idx := room_ids.indexOf room_id
  let next_idx := positive_remainder ((idx : Int) + delta) room_ids.length
  room_ids.getD next_idx 0

/-- `Board::room_ids_in_doctor_visit_order` (`board.rs` lines 281-291). -/
def room_ids_in_doctor_visit_order (room_ids : List Nat) (start_room_id : Nat) :
    List Nat :=
  let start_idx := room_ids.indexOf start_room_id
  (List.range room_ids.length).map
    (fun i => room_ids.getD ((start_idx + i) % room_ids.length) 0)

/-- Read entry `(r, c)` of an integer matrix. -/
def dget (m : List (List Int)) (r c : Nat) : Int := (m.getD r []).getD c 0

/-- Write entry `(r, c)` of an integer matrix (no-op out of bounds, like
`List.set`). -/
def dset (m : List (List Int)) (r c : Nat) (v : Int) : List (List Int) :=
  m.set r ((m.getD r []).set c v)

/-- One relaxation step of the inner loop body of `adjacency_to_distance`
(`board.rs` lines 419-428): replace `distance[s][d]` by
`distance[s][i] + distance[i][d]` when that is smaller. -/
def relax_triple (m : List (List Int)) (t : Nat × Nat × Nat) : List (List Int) :=
  let s := t.1
  let d := t.2.1
  let i := t.2.2
  let dvia := dget m s i + dget m i d
  if dvia < dget m s d then dset m s d dvia else m

/-- The `(source, destination, intermediate)` triples visited by one pass of
the relaxation loops of `adjacency_to_distance`, in order: all three indices
range over `1..dim` (index 0 is skipped by the Rust loops), and
`source == destination` is skipped. -/
def relax_triples (dim : Nat) : List (Nat × Nat × Nat) :=
  (List.range' 1 (dim - 1)).flatMap (fun s =>
    (List.range' 1 (dim - 1)).flatMap (fun d =>
      if s = d then []
      else (List.range' 1 (dim - 1)).map (fun i => (s, d, i))))

/-- One full pass of the relaxation loops of `adjacency_to_distance`. -/
def relax_pass (dim : Nat) (m : List (List Int)) : List (List Int) :=
  (relax_triples dim).foldl relax_triple m

/-- The `while is_improving_distance` loop of `adjacency_to_distance`: repeat
passes until a pass changes nothing.  A pass changes the matrix exactly when
the Rust flag is set, so the loop guard is the fixed-point test.  The `Nat`
fuel bounds the number of passes; `adjacency_to_distance` supplies fuel that
provably reaches the fixed point. -/
def relax_loop (dim : Nat) : Nat → List (List Int) → List (List Int)
  | 0, m => m
  | (fuel + 1), m =>
    let m2 := relax_pass dim m
    if m2 = m then m else relax_loop dim fuel m2

/-- The initial matrix of `adjacency_to_distance` (`board.rs` lines 395-407):
diagonal 0, adjacency 1, non-edge sentinel 999. -/
def initial_distance (adjacency : List (List Bool)) : List (List Int) :=
  let dim := adjacency.length
  (List.range dim).map (fun r =>
    (List.range dim).map (fun c =>
      if r = c then 0
      else if (adjacency.getD r []).getD c false then 1 else 999))

/-- Sum of the (nonnegative) entries of a matrix, plus one: enough fuel for
`relax_loop`, since every pass that changes the matrix strictly decreases this
sum. -/
def matrix_fuel (m : List (List Int)) : Nat :=
  (m.map (fun row => (row.map Int.toNat).sum)).sum + 1

/-- `adjacency_to_distance` (`board.rs` lines 391-433): iterative relaxation
of the initial matrix to a fixed point. -/
def adjacency_to_distance (adjacency : List (List Bool)) : List (List Int) :=
  let dim := adjacency.length
  let initial := initial_distance adjacency
  relax_loop dim (matrix_fuel initial) initial

/-- A room of the board (`room.rs`). -/
structure Room where
  id : Nat
  name : String
  adjacent : List Nat
  visible : List Nat
deriving DecidableEq

/-- The board data used by the game rules (`board.rs` `Board`): name, sorted
room-id list, adjacency/sight/distance matrices and the start rooms for the
player pieces and the doctor. -/
structure Board where
  name : String
  room_ids : List Nat
  adjacency : List (List Bool)
  sight : List (List Bool)
  distance : List (List Int)
  player_start_room_id : Nat
  doctor_start_room_id : Nat
deriving DecidableEq

/-- Set entry `(r, c)` of a boolean matrix to `true`. -/
def bset (m : List (List Bool)) (r c : Nat) : List (List Bool) :=
  m.set r ((m.getD r []).set c true)

/-- `Board::new` (`board.rs` lines 50-115): sorted room ids, matrices sized
`max id + 1` with `self = true` diagonals for existing rooms, and the derived
distance matrix.  Room ids are assumed distinct (they are `HashMap` keys in
the Rust code). -/
def Board.new (name : String) (rooms : List Room)
    (player_start_room_id doctor_start_room_id : Nat) : Board :=
  let room_ids := stable_sort (fun a b => decide (a ≤ b)) (rooms.map Room.id)
  let dim := (rooms.map Room.id).foldr max 0 + 1
  let empty : List (List Bool) :=
    (List.range dim).map (fun _ => (List.range dim).map (fun _ => false))
  let adjacency := rooms.foldl (fun m room =>
    room.adjacent.foldl (fun m a => bset m room.id a) (bset m room.id room.id)) empty
  let sight := rooms.foldl (fun m room =>
    room.visible.foldl (fun m v => bset m room.id v) (bset m room.id room.id)) empty
  { name := name
    room_ids := room_ids
    adjacency := adjacency
    sight := sight
    distance := adjacency_to_distance adjacency
    player_start_room_id := player_start_room_id
    doctor_start_room_id := doctor_start_room_id }

/-- Whether the adjacency matrix has a (directed) edge from `a` to `b`. -/
def has_edge (adjacency : List (List Bool)) (a b : Nat) : Bool :=
  (adjacency.getD a []).getD b false

/-- Whether a walk of length exactly `n` exists from `a` to `c` along edges of
the adjacency matrix (intermediate vertices below the matrix dimension). -/
def has_walk (adjacency : List (List Bool)) : Nat → Nat → Nat → Bool
  | 0, a, c => a == c
  | (n + 1), a, c =>
    (List.range adjacency.length).any
      (fun b => has_edge adjacency a b && has_walk adjacency n b c)

/-- Modelled from the spec ("ComputeDistance(): all-pairs shortest path over
the adjacency matrix treated as an unweighted graph (edge weight 1, non-edge
weight infinite sentinel, diagonal 0) ... no approximation permitted"): `d` is
the exact shortest-path distance from `a` to `c` capped at the sentinel 999 —
nonnegative, at most the sentinel, zero on the diagonal, realized by a walk
whenever it is below the sentinel, and a lower bound on the length of every
walk. -/
def is_exact_capped_distance (adjacency : List (List Bool)) (a c : Nat)
    (d : Int) : Prop :=
  0 ≤ d ∧ d ≤ 999 ∧ (a = c → d = 0) ∧
    (d < 999 → ∃ n : Nat, (n : Int) = d ∧ has_walk adjacency n a c = true) ∧
    (∀ n : Nat, has_walk adjacency n a c = true → d ≤ (n : Int))

/-! ## Rule constants (`rule_helper.rs`)

Card counts and scores are `f64` in the Rust code; the embedding uses exact
rationals for them (all modelled claims are about order/threshold structure,
not float rounding). -/

def JUST_OVER_ONE_THIRD : ℚ := 11 / 32

def PLAYER_STARTING_MOVE_CARDS : ℚ := 2

def MOVE_CARDS_PER_LOOT : ℚ := JUST_OVER_ONE_THIRD

def CLOVERS_PER_MOVE_CARD : ℚ := 1

def PLAYER_STARTING_WEAPONS : ℚ := 2

def WEAPONS_PER_LOOT : ℚ := JUST_OVER_ONE_THIRD

def STRENGTH_PER_WEAPON : ℚ := 53 / 24

def CLOVERS_PER_WEAPON : ℚ := 1

def PLAYER_STARTING_FAILURES : ℚ := 4

def FAILURES_PER_LOOT : ℚ := JUST_OVER_ONE_THIRD

def CLOVERS_PER_FAILURE : ℚ := 50 / 24

def STRANGERS_ARE_NOSY : Bool := false

def PLAYER_STARTING_STRENGTH : Int := 1

/-- `PlayerId` is used as a roster index with the sentinel
`INVALID_PLAYER_ID = PlayerId(-1)` (`rule_helper.rs` line 29); the newtype's
own definition is not in the sources, so per the spec ("PlayerId: index into a
fixed-size player roster", winner "unset sentinel until terminal") it is
modelled as `Int`. -/
def INVALID_PLAYER_ID : Int := -1

def NUM_NORMAL_PLAYERS_WHEN_HAVE_STRANGERS : Nat := 2

def SIDE_A_NORMAL_PLAYER_ID : Int := 0

def SIDE_B_STRANGER_PLAYER_ID : Int := 1

def SIDE_B_NORMAL_PLAYER_ID : Int := 2

def SIDE_A_STRANGER_PLAYER_ID : Int := 3

/-- `HEURISTIC_SCORE_WIN = f64::MAX`. -/
def HEURISTIC_SCORE_WIN : ℚ := f64MAX

/-- `HEURISTIC_SCORE_LOSS = f64::MIN`. -/
def HEURISTIC_SCORE_LOSS : ℚ := -f64MAX

/-- `rule_helper::num_all_players`. -/
def num_all_players_of (num_normal_players : Nat) : Nat :=
  if num_normal_players = NUM_NORMAL_PLAYERS_WHEN_HAVE_STRANGERS then 4
  else num_normal_players

/-- `rule_helper::to_normal_player_id`. -/
def to_normal_player_id (player_id : Int) (num_normal_players : Nat) : Int :=
  if num_normal_players ≠ NUM_NORMAL_PLAYERS_WHEN_HAVE_STRANGERS then player_id
  else if player_id = SIDE_A_NORMAL_PLAYER_ID ∨ player_id = SIDE_A_STRANGER_PLAYER_ID then
    SIDE_A_NORMAL_PLAYER_ID
  else SIDE_B_NORMAL_PLAYER_ID

/-- `rule_helper::allied_stranger`. -/
def allied_stranger (player_id : Int) : Int :=
  if player_id = SIDE_A_NORMAL_PLAYER_ID ∨ player_id = SIDE_A_STRANGER_PLAYER_ID then
    SIDE_A_STRANGER_PLAYER_ID
  else if player_id = SIDE_B_NORMAL_PLAYER_ID ∨ player_id = SIDE_B_STRANGER_PLAYER_ID then
    SIDE_B_STRANGER_PLAYER_ID
  else INVALID_PLAYER_ID

/-- `rule_helper::opposing_normal_player`. -/
def opposing_normal_player (player_id : Int) : Int :=
  if player_id = SIDE_A_NORMAL_PLAYER_ID ∨ player_id = SIDE_A_STRANGER_PLAYER_ID then
    SIDE_B_NORMAL_PLAYER_ID
  else SIDE_A_NORMAL_PLAYER_ID

/-- `rule_helper::opposing_stranger`. -/
def opposing_stranger (player_id : Int) : Int :=
  allied_stranger (opposing_normal_player player_id)

/-! ## Game state (`common_game_state.rs`, `player.rs`, `simple_turn.rs`,
`mutable_game_state.rs`) -/

/-- `PlayerType` (`player.rs`). -/
inductive PlayerType : Type where
  | Normal : PlayerType
  | Stranger : PlayerType
deriving DecidableEq

/-- `PlayerMove` (`player.rs`). -/
structure PlayerMove where
  player_id : Int
  dest_room_id : Nat
deriving DecidableEq

/-- `SimpleTurn` (`simple_turn.rs`). -/
structure SimpleTurn where
  moves : List PlayerMove
deriving DecidableEq

/-- `SimpleTurn::single`. -/
def SimpleTurn.single (player_id : Int) (dest_room_id : Nat) : SimpleTurn :=
  ⟨[⟨player_id, dest_room_id⟩]⟩

/-- `SimpleTurn::invalid_default`. -/
def SimpleTurn.invalid_default : SimpleTurn :=
  ⟨[⟨INVALID_PLAYER_ID, 0⟩]⟩

/-- `CommonGameState` (`common_game_state.rs`); the `is_log_enabled` flag only
gates console output and is not modelled. -/
structure CommonGameState where
  board : Board
  num_normal_players : Nat
  num_all_players : Nat
deriving DecidableEq

/-- `CommonGameState::from_num_normal_players`. -/
def CommonGameState.from_num_normal_players (board : Board)
    (num_normal_players : Nat) : CommonGameState :=
  ⟨board, num_normal_players, num_all_players_of num_normal_players⟩

/-- `CommonGameState::has_strangers`. -/
def CommonGameState.has_strangers (c : CommonGameState) : Bool :=
  decide (c.num_normal_players = NUM_NORMAL_PLAYERS_WHEN_HAVE_STRANGERS)

/-- `CommonGameState::get_player_type`: odd player ids are strangers in a
2-normal-player match. -/
def CommonGameState.get_player_type (c : CommonGameState) (player_id : Int) :
    PlayerType :=
  if c.has_strangers ∧ Int.tmod player_id 2 = 1 then PlayerType.Stranger
  else PlayerType.Normal

/-- `CommonGameState::player_ids`. -/
def CommonGameState.player_ids (c : CommonGameState) : List Int :=
  (List.range c.num_all_players).map (fun i => (i : Int))

/-- `CommonGameState::player_text`. -/
def CommonGameState.player_text (c : CommonGameState) (player_id : Int) : String :=
  let p := if c.get_player_type player_id = PlayerType.Normal then "P" else "p"
  p ++ toString (player_id + 1)

/-- `MutableGameState` (`mutable_game_state.rs`).  The `prev_state` field is
an undo/replay chain never read by the modelled operations and is omitted. -/
structure MutableGameState where
  common : CommonGameState
  turn_id : Int
  current_player_id : Int
  doctor_room_id : Nat
  player_room_ids : List Nat
  player_move_cards : List ℚ
  player_weapons : List ℚ
  player_failures : List ℚ
  player_strengths : List Int
  attacker_hist : List Int
  winner : Int
  prev_turn : SimpleTurn
deriving DecidableEq

/-- `MutableGameState::at_start`. -/
def MutableGameState.at_start (common : CommonGameState) : MutableGameState :=
  let n := common.num_all_players
  { common := common
    turn_id := 1
    current_player_id := 0
    doctor_room_id := common.board.doctor_start_room_id
    player_room_ids := List.replicate n common.board.player_start_room_id
    player_move_cards := List.replicate n PLAYER_STARTING_MOVE_CARDS
    player_weapons := List.replicate n PLAYER_STARTING_WEAPONS
    player_failures := List.replicate n PLAYER_STARTING_FAILURES
    player_strengths := List.replicate n PLAYER_STARTING_STRENGTH
    attacker_hist := []
    winner := INVALID_PLAYER_ID
    prev_turn := SimpleTurn.invalid_default }

/-- `MutableGameState::has_winner`. -/
def MutableGameState.has_winner (s : MutableGameState) : Bool :=
  decide (s.winner ≠ INVALID_PLAYER_ID)

/-- `MutableGameState::is_normal_turn`. -/
def MutableGameState.is_normal_turn (s : MutableGameState) : Bool :=
  decide (s.common.get_player_type s.current_player_id = PlayerType.Normal)

/-- Room of a player (`player_room_ids[player_id.0 as usize]`). -/
def MutableGameState.room_of (s : MutableGameState) (player_id : Int) : Nat :=
  s.player_room_ids.getD player_id.toNat 0

/-- Read entry `(r, c)` of a sight/adjacency matrix. -/
def sight_at (m : List (List Bool)) (r c : Nat) : Bool :=
  (m.getD r []).getD c false

/-- The summed path distance of a turn
(`check_normal_turn`/`after_normal_turn`, `mutable_game_state.rs`
lines 290-297 and 350-357). -/
def turn_total_dist (s : MutableGameState) (turn : SimpleTurn) : Int :=
  (turn.moves.map (fun mv =>
    dget s.common.board.distance (s.room_of mv.player_id) mv.dest_room_id)).sum

/-- The first loop of `check_normal_turn` (`mutable_game_state.rs`
lines 278-288): reject a player id at or beyond the roster size, or a
destination room id not on the board. -/
def check_moves_ids (s : MutableGameState) :
    List PlayerMove → Except String Unit
  | [] => Except.ok ()
  | mv :: rest =>
    if (s.common.num_all_players : Int) ≤ mv.player_id then
      Except.error ("invalid playerId " ++ toString mv.player_id ++
        " (displayed " ++ s.common.player_text mv.player_id ++ ")")
    else if !(s.common.board.room_ids.contains mv.dest_room_id) then
      Except.error ("invalid roomId " ++ toString mv.dest_room_id)
    else check_moves_ids s rest

/-- The second loop of `check_normal_turn` (`mutable_game_state.rs`
lines 308-325): reject moving a piece that is neither the active player nor a
stranger. -/
def check_moves_movers (s : MutableGameState) :
    List PlayerMove → Except String Unit
  | [] => Except.ok ()
  | mv :: rest =>
    if (s.player_room_ids.length : Int) ≤ mv.player_id then
      Except.error ("invalid player (" ++ s.common.player_text mv.player_id ++
        ") in move")
    else if mv.player_id ≠ s.current_player_id ∧
        s.common.get_player_type mv.player_id ≠ PlayerType.Stranger then
      Except.error ("player " ++ s.common.player_text s.current_player_id ++
        " tried to move non-stranger " ++ s.common.player_text mv.player_id)
    else check_moves_movers s rest

/-- `MutableGameState::check_normal_turn` (`mutable_game_state.rs`
lines 277-328). -/
def check_normal_turn (s : MutableGameState) (turn : SimpleTurn) :
    Except String Unit :=
  match check_moves_ids s turn.moves with
  | Except.error e => Except.error e
  | Except.ok _ =>
    let total_dist := turn_total_dist s turn
    if s.player_move_cards.getD s.current_player_id.toNat 0 <
        ((max (total_dist - 1) 0 : Int) : ℚ) then
      Except.error ("player " ++ s.common.player_text s.current_player_id ++
        " used too many move points (" ++ toString total_dist ++ ")")
    else check_moves_movers s turn.moves

/-- `PlayerAction` (`player.rs`). -/
inductive PlayerAction : Type where
  | None : PlayerAction
  | Loot : PlayerAction
  | Attack : PlayerAction
deriving DecidableEq

/-- `MutableGameState::best_action_allowed` (`mutable_game_state.rs`
lines 454-483). -/
def best_action_allowed (s : MutableGameState)
    (moved_stranger_that_saw_doctor : Bool) : PlayerAction :=
  let current_room_id := s.room_of s.current_player_id
  let seen := s.common.player_ids.any (fun pid =>
    decide (pid ≠ s.current_player_id) &&
      sight_at s.common.board.sight current_room_id (s.room_of pid))
  if seen then PlayerAction.None
  else if current_room_id = s.doctor_room_id ∧
      (STRANGERS_ARE_NOSY = false ∨ moved_stranger_that_saw_doctor = false) then
    PlayerAction.Attack
  else if sight_at s.common.board.sight current_room_id s.doctor_room_id then
    PlayerAction.None
  else PlayerAction.Loot

/-- `use_weapon` (`mutable_game_state.rs` lines 1161-1166): returns the
updated weapon list and attack strength. -/
def use_weapon (player_weapons : List ℚ) (idx : Nat) (attack_strength : ℚ) :
    List ℚ × ℚ :=
  if 1 ≤ player_weapons.getD idx 0 then
    (player_weapons.set idx (player_weapons.getD idx 0 - 1),
      attack_strength + STRENGTH_PER_WEAPON)
  else (player_weapons, attack_strength)

/-- `defend_with_card_type` (`mutable_game_state.rs` lines 1168-1179):
returns the remaining attack strength and the updated card list. -/
def defend_with_card_type (idx : Nat) (attack_strength : ℚ)
    (player_cards : List ℚ) (clovers_per_card : ℚ) : ℚ × List ℚ :=
  if 0 < attack_strength ∧ 0 < player_cards.getD idx 0 then
    let num_used_cards :=
      min (player_cards.getD idx 0) (attack_strength / clovers_per_card)
    (attack_strength - num_used_cards * clovers_per_card,
      player_cards.set idx (player_cards.getD idx 0 - num_used_cards))
  else (attack_strength, player_cards)

/-- `MutableGameState::num_defensive_clovers` (`mutable_game_state.rs`
lines 184-207). -/
def num_defensive_clovers (s : MutableGameState) : ℚ :=
  let attacking_side :=
    to_normal_player_id s.current_player_id s.common.num_normal_players
  ((List.range s.common.num_normal_players).map (fun pid =>
    let pid : Int := (pid : Int)
    if pid ≠ s.current_player_id ∧
        s.common.get_player_type pid = PlayerType.Normal ∧ pid ≠ attacking_side then
      s.player_failures.getD pid.toNat 0 * CLOVERS_PER_FAILURE +
        s.player_weapons.getD pid.toNat 0 * CLOVERS_PER_WEAPON +
        s.player_move_cards.getD pid.toNat 0 * CLOVERS_PER_MOVE_CARD
    else 0)).sum

/-- One defender spending failure, then weapon, then move cards
(the three `defend_with_card_type` calls of `process_attack`). -/
def defend_round (idx : Nat) (attack_strength : ℚ)
    (failures weapons move_cards : List ℚ) : ℚ × List ℚ × List ℚ × List ℚ :=
  let fw := defend_with_card_type idx attack_strength failures CLOVERS_PER_FAILURE
  let ww := defend_with_card_type idx fw.1 weapons CLOVERS_PER_WEAPON
  let mw := defend_with_card_type idx ww.1 move_cards CLOVERS_PER_MOVE_CARD
  (mw.1, fw.2, ww.2, mw.2)

/-- The counter-clockwise defenders visited by the free-for-all attack loop of
`process_attack` (`mutable_game_state.rs` lines 827-858): the loop steps
`defender` down cyclically and returns to the attacker after
`num_all_players` steps. -/
def defender_sequence (current_player_id : Int) (num_all_players : Nat) :
    List Int :=
  (List.range' 1 (num_all_players - 1)).map (fun k =>
    ((positive_remainder (current_player_id - (k : Int)) num_all_players : Nat) : Int))

/-- The free-for-all attack loop of `process_attack`: while the budget is
positive, the next defender spends cards; the attacker wins when the loop
comes back around to them with budget still positive. -/
def attack_defenders_fold :
    List Int → ℚ → List ℚ → List ℚ → List ℚ →
      Bool × ℚ × List ℚ × List ℚ × List ℚ
  | [], attack_strength, failures, weapons, move_cards =>
    if 0 < attack_strength then (true, attack_strength, failures, weapons, move_cards)
    else (false, attack_strength, failures, weapons, move_cards)
  | defender :: rest, attack_strength, failures, weapons, move_cards =>
    if 0 < attack_strength then
      let r := defend_round defender.toNat attack_strength failures weapons move_cards
      attack_defenders_fold rest r.1 r.2.1 r.2.2.1 r.2.2.2
    else (false, attack_strength, failures, weapons, move_cards)

/-- `MutableGameState::process_attack` (`mutable_game_state.rs`
lines 778-862): returns whether the attacker wins, and the updated state. -/
def process_attack (s : MutableGameState) : Bool × MutableGameState :=
  let current_idx := s.current_player_id.toNat
  let attack_strength : ℚ := ((s.player_strengths.getD current_idx 0 : Int) : ℚ)
  let s := { s with
    player_strengths :=
      s.player_strengths.set current_idx (s.player_strengths.getD current_idx 0 + 1)
    attacker_hist := s.attacker_hist ++ [s.current_player_id] }
  if s.common.has_strangers then
    if attack_strength < 0 then (false, s)
    else
      let uw :=
        if s.is_normal_turn then use_weapon s.player_weapons current_idx attack_strength
        else (s.player_weapons, attack_strength)
      let defender_idx := (opposing_normal_player s.current_player_id).toNat
      let fw := defend_with_card_type defender_idx uw.2 s.player_failures CLOVERS_PER_FAILURE
      let ww := defend_with_card_type defender_idx fw.1 uw.1 CLOVERS_PER_WEAPON
      let mw := defend_with_card_type defender_idx ww.1 s.player_move_cards CLOVERS_PER_MOVE_CARD
      (decide (0 < mw.1),
        { s with
          player_failures := fw.2
          player_weapons := ww.2
          player_move_cards := mw.2 })
  else
    let ndc := num_defensive_clovers s
    let uw :=
      if ndc ≤ 2 * attack_strength then use_weapon s.player_weapons current_idx attack_strength
      else (s.player_weapons, attack_strength)
    let s := { s with player_weapons := uw.1 }
    if ndc < uw.2 then (true, s)
    else
      let r := attack_defenders_fold
        (defender_sequence s.current_player_id s.common.num_all_players)
        uw.2 s.player_failures s.player_weapons s.player_move_cards
      (r.1,
        { s with
          player_failures := r.2.2.1
          player_weapons := r.2.2.2.1
          player_move_cards := r.2.2.2.2 })

/-- `MutableGameState::do_doctor_phase` (`mutable_game_state.rs`
lines 864-884): advance the doctor one room, rotate the active player, and —
once at least one full round has elapsed — activate the first player found
occupying the doctor's new room, scanning forward from the rotated candidate. -/
def do_doctor_phase (s : MutableGameState) : MutableGameState :=
  let s := { s with
    doctor_room_id := next_room_id s.doctor_room_id 1 s.common.board.room_ids }
  let n : Nat := s.common.num_all_players
  let cur := Int.emod (s.current_player_id + 1) (n : Int)
  let s := { s with current_player_id := cur }
  if (n : Int) ≤ s.turn_id then
    match (List.range n).find? (fun off =>
      s.player_room_ids.getD (Int.emod (cur + (off : Int)) (n : Int)).toNat 0
        == s.doctor_room_id) with
    | some off => { s with current_player_id := Int.emod (cur + (off : Int)) (n : Int) }
    | none => s
  else s

/-- `MutableGameState::after_stranger_turn` (`mutable_game_state.rs`
lines 407-452), with `want_log = false` (the search path).  The recursion
through consecutive stranger turns is bounded by explicit fuel; with fuel 0
the remaining forced stranger turns are left unresolved. -/
def after_stranger_turn : Nat → MutableGameState → MutableGameState
  | 0, s => s
  | (fuel + 1), s =>
    let best_action := best_action_allowed s false
    let current_idx := s.current_player_id.toNat
    let current_room := s.room_of s.current_player_id
    let new_room_id :=
      if best_action = PlayerAction.Attack then current_room
      else next_room_id current_room (-1) s.common.board.room_ids
    let s := { s with player_room_ids := s.player_room_ids.set current_idx new_room_id }
    let best_action :=
      if best_action ≠ PlayerAction.Attack then best_action_allowed s false
      else best_action
    let s :=
      if best_action = PlayerAction.Attack then
        let r := process_attack s
        if r.1 then
          let winner_id :=
            to_normal_player_id r.2.current_player_id r.2.common.num_normal_players
          { r.2 with current_player_id := winner_id, winner := winner_id }
        else r.2
      else s
    let s := if s.has_winner then s else do_doctor_phase s
    let s := { s with turn_id := s.turn_id + 1 }
    if s.has_winner = false ∧ s.is_normal_turn = false then after_stranger_turn fuel s
    else s

/-- `MutableGameState::after_normal_turn` (`mutable_game_state.rs`
lines 345-405), with `want_log = false` (the search path): debit move cards,
relocate the movers, resolve the action, advance the doctor, and auto-resolve
any forced stranger turns (bounded by the fuel). -/
def after_normal_turn (fuel : Nat) (s : MutableGameState) (turn : SimpleTurn) :
    MutableGameState :=
  let total_dist := turn_total_dist s turn
  let move_cards_used : ℚ := ((max (total_dist - 1) 0 : Int) : ℚ)
  let current_idx := s.current_player_id.toNat
  let s := { s with
    player_move_cards := s.player_move_cards.set current_idx
      (s.player_move_cards.getD current_idx 0 - move_cards_used) }
  let moved := turn.moves.foldl (fun (acc : List Nat × Bool) mv =>
    let room_id := acc.1.getD mv.player_id.toNat 0
    (acc.1.set mv.player_id.toNat mv.dest_room_id,
      acc.2 || (decide (mv.player_id ≠ s.current_player_id) &&
        sight_at s.common.board.sight room_id s.doctor_room_id)))
    (s.player_room_ids, false)
  let s := { s with player_room_ids := moved.1, prev_turn := turn }
  let action := best_action_allowed s moved.2
  let s :=
    if action = PlayerAction.Attack then
      let r := process_attack s
      if r.1 then { r.2 with winner := r.2.current_player_id } else r.2
    else if action = PlayerAction.Loot then
      { s with
        player_move_cards := s.player_move_cards.set current_idx
          (s.player_move_cards.getD current_idx 0 + MOVE_CARDS_PER_LOOT)
        player_weapons := s.player_weapons.set current_idx
          (s.player_weapons.getD current_idx 0 + WEAPONS_PER_LOOT)
        player_failures := s.player_failures.set current_idx
          (s.player_failures.getD current_idx 0 + FAILURES_PER_LOOT) }
    else s
  let s := if s.has_winner then s else do_doctor_phase s
  let s := { s with turn_id := s.turn_id + 1 }
  if s.has_winner = false ∧ s.is_normal_turn = false then after_stranger_turn fuel s
  else s

/-- `f64 as i32` truncation toward zero, for
`self.player_move_cards[...] as i32`. -/
def rat_trunc (q : ℚ) : Int := Int.tdiv q.num (q.den : Int)

/-- `MutableGameState::possible_turns_single` (`mutable_game_state.rs`
lines 725-742). -/
def possible_turns_single (s : MutableGameState) (dist_allowed : Int)
    (movable_player : Int) : List SimpleTurn :=
  let movable_room := s.room_of movable_player
  (s.common.board.room_ids.filter (fun dest =>
    dget s.common.board.distance movable_room dest ≤ dist_allowed)).map
    (fun dest => SimpleTurn.single movable_player dest)

/-- `MutableGameState::possible_turns_dual` (`mutable_game_state.rs`
lines 744-776). -/
def possible_turns_dual (s : MutableGameState) (dist_allowed : Int)
    (movable_player_a movable_player_b : Int) : List SimpleTurn :=
  let src_room_a := s.room_of movable_player_a
  let src_room_b := s.room_of movable_player_b
  s.common.board.room_ids.flatMap (fun dst_room_a =>
    let dist_remaining :=
      dist_allowed - dget s.common.board.distance src_room_a dst_room_a
    if dist_remaining ≤ 0 ∨ src_room_a = dst_room_a then []
    else
      (s.common.board.room_ids.filter (fun dst_room_b =>
        dget s.common.board.distance src_room_b dst_room_b ≤ dist_remaining ∧
          src_room_b ≠ dst_room_b)).map (fun dst_room_b =>
        SimpleTurn.mk [⟨movable_player_a, dst_room_a⟩, ⟨movable_player_b, dst_room_b⟩]))

/-- `MutableGameState::possible_turns` (`mutable_game_state.rs`
lines 667-701): empty for terminal states; otherwise singles for the active
player and (with strangers) both strangers, plus dual moves when the active
player has a positive move-card balance. -/
def possible_turns (s : MutableGameState) : List SimpleTurn :=
  if s.has_winner then []
  else
    let dist_allowed : Int :=
      rat_trunc (s.player_move_cards.getD s.current_player_id.toNat 0) + 1
    let turns := possible_turns_single s dist_allowed s.current_player_id
    if s.common.has_strangers then
      let als := allied_stranger s.current_player_id
      let ops := opposing_stranger s.current_player_id
      let turns := turns ++ possible_turns_single s dist_allowed als ++
        possible_turns_single s dist_allowed ops
      if 0 < s.player_move_cards.getD s.current_player_id.toNat 0 then
        turns ++ possible_turns_dual s dist_allowed s.current_player_id als ++
          possible_turns_dual s dist_allowed s.current_player_id ops ++
          possible_turns_dual s dist_allowed als ops
      else turns
    else turns

/-- `find_index_from` (`mutable_game_state.rs` lines 1276-1288). -/
def find_index_from (room_ids : List Nat) (target : Nat) (start : Nat) :
    Option Int :=
  ((room_ids.enum.drop start).find? (fun p => p.2 == target)).map
    (fun p => (p.1 : Int))

/-- `MutableGameState::doctor_score_with_rooms` (`mutable_game_state.rs`
lines 617-665).  `powi`/`powf` on the integer-valued exponents that arise are
modelled by `zpow`. -/
def doctor_score_with_rooms (s : MutableGameState)
    (my_room stranger_ally_room normal_enemy_room stranger_enemy_room : Nat) : ℚ :=
  let DECAY_FACTOR_NORMAL : ℚ := 9 / 10
  let DECAY_FACTOR_STRANGER : ℚ := 1 / 2
  let num_players_not_had_turn : Int := (s.common.num_all_players : Int) - s.turn_id
  let doctor_delta_for_activation := max (num_players_not_had_turn + 1) 1
  let next_doctor_room_id :=
    next_room_id s.doctor_room_id doctor_delta_for_activation s.common.board.room_ids
  let doctor_rooms :=
    s.doctor_room_id ::
      room_ids_in_doctor_visit_order s.common.board.room_ids next_doctor_room_id
  let my_starting_search_idx := if 0 < num_players_not_had_turn then 1 else 0
  let my_doctor_dist : Int :=
    match (List.range' my_starting_search_idx
        (doctor_rooms.length - my_starting_search_idx)).find? (fun i =>
      doctor_rooms.getD i 0 == my_room ||
        (decide (0 < i) &&
          decide (dget s.common.board.distance my_room (doctor_rooms.getD i 0) ≤ 1))) with
    | some i => (i : Int)
    | none => 999
  let stranger_ally_doctor_dist :=
    (find_index_from doctor_rooms stranger_ally_room 1).getD (-1)
  let normal_enemy_doctor_dist :=
    (find_index_from doctor_rooms normal_enemy_room 1).getD (-1)
  let stranger_enemy_doctor_dist :=
    (find_index_from doctor_rooms stranger_enemy_room 1).getD (-1)
  DECAY_FACTOR_NORMAL ^ my_doctor_dist +
    DECAY_FACTOR_STRANGER ^ stranger_ally_doctor_dist -
    DECAY_FACTOR_NORMAL ^ normal_enemy_doctor_dist -
    DECAY_FACTOR_STRANGER ^ stranger_enemy_doctor_dist

/-- The `misc_score` closure of `MutableGameState::heuristic_score`
(`mutable_game_state.rs` lines 524-538). -/
def misc_score (s : MutableGameState) (player_id : Int) (allied_strength : Int)
    (is_allied_turn : Bool) (allied_doctor_advantage : ℚ) : ℚ :=
  let st : ℚ := (allied_strength : ℚ)
  st + 1 / 2 * st *
      (s.player_move_cards.getD player_id.toNat 0 +
        (if is_allied_turn then 19 / 20 else 0) +
        allied_doctor_advantage * (9 / 10)) +
    1 / 2 * s.player_weapons.getD player_id.toNat 0 +
    1 / 8 * s.player_failures.getD player_id.toNat 0

/-- `MutableGameState::heuristic_score` (`mutable_game_state.rs`
lines 513-605). -/
def heuristic_score (s : MutableGameState) (analysis_player_id : Int) : ℚ :=
  if s.has_winner then
    if analysis_player_id = to_normal_player_id s.winner s.common.num_normal_players then
      HEURISTIC_SCORE_WIN
    else HEURISTIC_SCORE_LOSS
  else if s.common.has_strangers then
    let stranger_ally := allied_stranger analysis_player_id
    let normal_opponent := opposing_normal_player analysis_player_id
    let stranger_opponent := allied_stranger normal_opponent
    let allied_strength := s.player_strengths.getD analysis_player_id.toNat 0 +
      s.player_strengths.getD stranger_ally.toNat 0
    let opponent_strength := s.player_strengths.getD normal_opponent.toNat 0 +
      s.player_strengths.getD stranger_opponent.toNat 0
    let is_my_turn : Bool := decide (analysis_player_id = s.current_player_id)
    let allied_doctor_advantage :=
      doctor_score_with_rooms s
        (s.room_of (if is_my_turn then analysis_player_id else normal_opponent))
        (s.room_of (if is_my_turn then stranger_ally else stranger_opponent))
        (s.room_of (if is_my_turn then normal_opponent else analysis_player_id))
        (s.room_of (if is_my_turn then stranger_opponent else stranger_ally)) *
        (if is_my_turn then 1 else -1)
    misc_score s analysis_player_id allied_strength is_my_turn
        allied_doctor_advantage -
      misc_score s normal_opponent opponent_strength (!is_my_turn)
        (-allied_doctor_advantage)
  else
    ((List.range s.common.num_all_players).map (fun pid =>
      let pid : Int := (pid : Int)
      let weight : ℚ :=
        if to_normal_player_id pid s.common.num_normal_players = analysis_player_id then 1
        else -1 / ((s.common.num_normal_players - 1 : Nat) : ℚ)
      weight * misc_score s pid (s.player_strengths.getD pid.toNat 0)
        (decide (pid = s.current_player_id)) 0)).sum

/-- The `GameState<SimpleTurn> for MutableGameState` trait implementation
(`tree_search.rs` lines 639-676), with the stranger auto-turn recursion of
`after_turn` bounded by the given fuel. -/
def MGS_game (fuel : Nat) : GameIfc MutableGameState SimpleTurn where
  current_player_id s := s.current_player_id
  num_players s := s.common.num_normal_players
  has_winner s := s.has_winner
  winner s := s.winner
  possible_turns := possible_turns
  after_turn s t := after_normal_turn fuel s t
  heuristic_score s pid := Fl.fin (heuristic_score s pid)
  prev_turn s := some s.prev_turn

/-- `PartialEq for MutableGameState` (`mutable_game_state.rs`
lines 1181-1193): the state's own structural equality; `CommonGameState`
equality compares the board name and the player counts only
(`common_game_state.rs` lines 80-86). -/
def mgs_eq (a b : MutableGameState) : Prop :=
  a.common.board.name = b.common.board.name ∧
    a.common.num_normal_players = b.common.num_normal_players ∧
    a.common.num_all_players = b.common.num_all_players ∧
    a.current_player_id = b.current_player_id ∧
    a.doctor_room_id = b.doctor_room_id ∧
    a.player_room_ids = b.player_room_ids ∧
    a.player_move_cards = b.player_move_cards ∧
    a.player_weapons = b.player_weapons ∧
    a.player_failures = b.player_failures ∧
    a.player_strengths = b.player_strengths ∧
    a.winner = b.winner

instance (a b : MutableGameState) : Decidable (mgs_eq a b) := by
  unfold mgs_eq; infer_instance

/-- Nonnegativity of every player's move-card, weapon and failure counts. -/
def nonneg_cards (s : MutableGameState) : Prop :=
  (∀ q ∈ s.player_move_cards, 0 ≤ q) ∧ (∀ q ∈ s.player_weapons, 0 ≤ q) ∧
    (∀ q ∈ s.player_failures, 0 ≤ q)

/-- States reachable from the start state through turns that pass
`check_normal_turn` (each applied with some stranger-recursion fuel). -/
inductive Reachable (common : CommonGameState) : MutableGameState → Prop where
  | start : Reachable common (MutableGameState.at_start common)
  | step (s : MutableGameState) (t : SimpleTurn) (fuel : Nat) :
      Reachable common s → check_normal_turn s t = Except.ok () →
      Reachable common (after_normal_turn fuel s t)

/-! ## Concrete boards and states used by witnesses and counterexamples -/

/-- A six-room cycle board (rooms 1-2-3-4-5-6-1) with no visibility beyond a
room seeing itself, with its matrices written out directly (they equal what
`Board.new` computes for that room list). -/
def cycle6_board : Board :=
  { name := "Cycle6"
    room_ids := [1, 2, 3, 4, 5, 6]
    adjacency :=
      [[false, false, false, false, false, false, false],
       [false, true, true, false, false, false, true],
       [false, true, true, true, false, false, false],
       [false, false, true, true, true, false, false],
       [false, false, false, true, true, true, false],
       [false, false, false, false, true, true, true],
       [false, true, false, false, false, true, true]]
    sight :=
      [[false, false, false, false, false, false, false],
       [false, true, false, false, false, false, false],
       [false, false, true, false, false, false, false],
       [false, false, false, true, false, false, false],
       [false, false, false, false, true, false, false],
       [false, false, false, false, false, true, false],
       [false, false, false, false, false, false, true]]
    distance :=
      [[0, 999, 999, 999, 999, 999, 999],
       [999, 0, 1, 2, 3, 2, 1],
       [999, 1, 0, 1, 2, 3, 2],
       [999, 2, 1, 0, 1, 2, 3],
       [999, 3, 2, 1, 0, 1, 2],
       [999, 2, 3, 2, 1, 0, 1],
       [999, 1, 2, 3, 2, 1, 0]]
    player_start_room_id := 1
    doctor_start_room_id := 1 }

def common2p : CommonGameState :=
  CommonGameState.from_num_normal_players cycle6_board 2

/-- A 2-normal-player (4-piece) state on the cycle board: the active player 0
has no move cards (so only single one-step moves are generated), player 2 is
one step from the room the doctor will occupy two turns later and strong
enough to win any attack. -/
def c1_state : MutableGameState :=
  { common := common2p
    turn_id := 1
    current_player_id := 0
    doctor_room_id := 1
    player_room_ids := [5, 6, 4, 1]
    player_move_cards := [0, 0, 0, 0]
    player_weapons := [0, 0, 0, 0]
    player_failures := [1, 0, 1, 0]
    player_strengths := [1, 1, 1000, 1]
    attacker_hist := []
    winner := INVALID_PLAYER_ID
    prev_turn := SimpleTurn.invalid_default }

/-- A three-room path board (1-2-3) with no visibility beyond a room seeing
itself, with its matrices written out directly (they equal what `Board.new`
computes for that room list). -/
def path3_board : Board :=
  { name := "Path3"
    room_ids := [1, 2, 3]
    adjacency :=
      [[false, false, false, false], [false, true, true, false],
       [false, true, true, true], [false, false, true, true]]
    sight :=
      [[false, false, false, false], [false, true, false, false],
       [false, false, true, false], [false, false, false, true]]
    distance :=
      [[0, 999, 999, 999], [999, 0, 1, 2], [999, 1, 0, 1], [999, 2, 1, 0]]
    player_start_room_id := 1
    doctor_start_room_id := 1 }

def common3p : CommonGameState :=
  CommonGameState.from_num_normal_players path3_board 3

/-- A 3-player state in its first round (`turn_id = 1`). -/
def c8_state_a : MutableGameState :=
  { common := common3p
    turn_id := 1
    current_player_id := 0
    doctor_room_id := 1
    player_room_ids := [2, 3, 3]
    player_move_cards := [1, 1, 1]
    player_weapons := [1, 1, 1]
    player_failures := [1, 1, 1]
    player_strengths := [1, 1, 1]
    attacker_hist := []
    winner := INVALID_PLAYER_ID
    prev_turn := SimpleTurn.invalid_default }

/-- The same state except for the uncompared `turn_id` field (a later round). -/
def c8_state_b : MutableGameState :=
  { c8_state_a with turn_id := 7 }

/-- A board containing a room with id 0 (a path 0 - 1 - 2), as `Board::new`
accepts; the relaxation loops of `adjacency_to_distance` skip index 0. -/
def room_zero_rooms : List Room :=
  [⟨0, "Z", [1], []⟩, ⟨1, "A", [0, 2], []⟩, ⟨2, "B", [1], []⟩]

def room_zero_board : Board := Board.new "RoomZero" room_zero_rooms 1 1

/-! ## Spec-side definitions for the remaining claims -/

/-- Modelled from the spec: one card type's defensive spending ("spending
failure, then weapon, then move cards, each at a fixed card-to-defense
exchange rate, until the budget is exhausted or cards run out"): while the
budget is positive and cards remain, spend up to `budget / rate` cards.
Returns the remaining cards and budget. -/
def spec_spend (cards budget rate : ℚ) : ℚ × ℚ :=
  if 0 < budget ∧ 0 < cards then
    (cards - min cards (budget / rate), budget - min cards (budget / rate) * rate)
  else (cards, budget)

/-- Modelled from the spec ("With auxiliaries: the attacker may first spend
one weapon card for a fixed strength bonus if a normal player is attacking;
the single opposing normal player defends by spending failure, then weapon,
then move cards, each at a fixed card-to-defense exchange rate, until the
budget is exhausted or cards run out; attacker wins iff remaining budget is
still positive").  Returns
`(win, attacker_weapons, def_failures, def_weapons, def_move_cards)`. -/
def spec_auxiliary_attack (attacker_is_normal : Bool) (attack_budget : ℚ)
    (attacker_weapons def_failures def_weapons def_move_cards : ℚ) :
    Bool × ℚ × ℚ × ℚ × ℚ :=
  let spends_weapon := attacker_is_normal ∧ 1 ≤ attacker_weapons
  let attacker_weapons' :=
    if spends_weapon then attacker_weapons - 1 else attacker_weapons
  let budget :=
    if spends_weapon then attack_budget + STRENGTH_PER_WEAPON else attack_budget
  let f := spec_spend def_failures budget CLOVERS_PER_FAILURE
  let w := spec_spend def_weapons f.2 CLOVERS_PER_WEAPON
  let m := spec_spend def_move_cards w.2 CLOVERS_PER_MOVE_CARD
  (decide (0 < m.2), attacker_weapons', f.1, w.1, m.1)

/-- The turn references a player id outside the roster (at or beyond the
roster size; `PlayerId` is a roster index per the spec, so ids are
nonnegative). -/
def has_bad_player_id (s : MutableGameState) (turn : SimpleTurn) : Prop :=
  ∃ mv ∈ turn.moves, (s.common.num_all_players : Int) ≤ mv.player_id

/-- The turn references a room id that is not on the board. -/
def has_bad_room_id (s : MutableGameState) (turn : SimpleTurn) : Prop :=
  ∃ mv ∈ turn.moves, mv.dest_room_id ∉ s.common.board.room_ids

/-- The turn's total path distance, beyond the one free step (floored at
zero), exceeds the mover's move-card budget. -/
def over_budget (s : MutableGameState) (turn : SimpleTurn) : Prop :=
  s.player_move_cards.getD s.current_player_id.toNat 0 <
    ((max (turn_total_dist s turn - 1) 0 : Int) : ℚ)

/-- The turn moves a player other than the active player or a stranger
(auxiliary) piece. -/
def has_bad_mover (s : MutableGameState) (turn : SimpleTurn) : Prop :=
  ∃ mv ∈ turn.moves, mv.player_id ≠ s.current_player_id ∧
    s.common.get_player_type mv.player_id ≠ PlayerType.Stranger

/-- A trivial 2-player instance of the game interface (one self-loop turn,
constant heuristic), used to instantiate generic search theorems. -/
def trivial_game : GameIfc Unit Unit where
  current_player_id _ := 0
  num_players _ := 2
  has_winner _ := false
  winner _ := -1
  possible_turns _ := [()]
  after_turn s _ := s
  heuristic_score _ _ := Fl.fin 0
  prev_turn _ := none

instance (s : MutableGameState) (t : SimpleTurn) :
    Decidable (has_bad_player_id s t) := by
  unfold has_bad_player_id; infer_instance

instance (s : MutableGameState) (t : SimpleTurn) :
    Decidable (has_bad_room_id s t) := by
  unfold has_bad_room_id; infer_instance

instance (s : MutableGameState) (t : SimpleTurn) :
    Decidable (over_budget s t) := by
  unfold over_budget; infer_instance

instance (s : MutableGameState) (t : SimpleTurn) :
    Decidable (has_bad_mover s t) := by
  unfold has_bad_mover; infer_instance

def attack_defender (s : MutableGameState) : Nat :=
  (opposing_normal_player s.current_player_id).toNat

def attack_spec_result (s : MutableGameState) : Bool × ℚ × ℚ × ℚ × ℚ :=
  spec_auxiliary_attack s.is_normal_turn
    ((s.player_strengths.getD s.current_player_id.toNat 0 : Int) : ℚ)
    (s.player_weapons.getD s.current_player_id.toNat 0)
    (s.player_failures.getD (attack_defender s) 0)
    (s.player_weapons.getD (attack_defender s) 0)
    (s.player_move_cards.getD (attack_defender s) 0)

/-- The body of one iteration of `after_stranger_turn`
(`mutable_game_state.rs` lines 407-452), without the trailing recursion. -/
def stranger_step (s : MutableGameState) : MutableGameState :=
  let best_action := best_action_allowed s false
  let current_idx := s.current_player_id.toNat
  let current_room := s.room_of s.current_player_id
  let new_room_id :=
    if best_action = PlayerAction.Attack then current_room
    else next_room_id current_room (-1) s.common.board.room_ids
  let s := { s with player_room_ids := s.player_room_ids.set current_idx new_room_id }
  let best_action :=
    if best_action ≠ PlayerAction.Attack then best_action_allowed s false
    else best_action
  let s :=
    if best_action = PlayerAction.Attack then
      let r := process_attack s
      if r.1 then
        let winner_id :=
          to_normal_player_id r.2.current_player_id r.2.common.num_normal_players
        { r.2 with current_player_id := winner_id, winner := winner_id }
      else r.2
    else s
  let s := if s.has_winner then s else do_doctor_phase s
  { s with turn_id := s.turn_id + 1 }

/-- All state fields that `PartialEq` cares about plus the full common state:
two states with equal keys differ at most in `attacker_hist` and
`prev_turn`. -/
def mgs_key (s : MutableGameState) :
    CommonGameState × Int × Int × Nat × List Nat × List ℚ × List ℚ × List ℚ ×
      List Int × Int :=
  (s.common, s.turn_id, s.current_player_id, s.doctor_room_id,
    s.player_room_ids, s.player_move_cards, s.player_weapons,
    s.player_failures, s.player_strengths, s.winner)

/-- The body of `after_normal_turn` (`mutable_game_state.rs` lines 345-405)
without the trailing forced-stranger recursion. -/
def normal_step (s : MutableGameState) (turn : SimpleTurn) : MutableGameState :=
  let total_dist := turn_total_dist s turn
  let move_cards_used : ℚ := ((max (total_dist - 1) 0 : Int) : ℚ)
  let current_idx := s.current_player_id.toNat
  let s := { s with
    player_move_cards := s.player_move_cards.set current_idx
      (s.player_move_cards.getD current_idx 0 - move_cards_used) }
  let moved := turn.moves.foldl (fun (acc : List Nat × Bool) mv =>
    let room_id := acc.1.getD mv.player_id.toNat 0
    (acc.1.set mv.player_id.toNat mv.dest_room_id,
      acc.2 || (decide (mv.player_id ≠ s.current_player_id) &&
        sight_at s.common.board.sight room_id s.doctor_room_id)))
    (s.player_room_ids, false)
  let s := { s with player_room_ids := moved.1, prev_turn := turn }
  let action := best_action_allowed s moved.2
  let s :=
    if action = PlayerAction.Attack then
      let r := process_attack s
      if r.1 then { r.2 with winner := r.2.current_player_id } else r.2
    else if action = PlayerAction.Loot then
      { s with
        player_move_cards := s.player_move_cards.set current_idx
          (s.player_move_cards.getD current_idx 0 + MOVE_CARDS_PER_LOOT)
        player_weapons := s.player_weapons.set current_idx
          (s.player_weapons.getD current_idx 0 + WEAPONS_PER_LOOT)
        player_failures := s.player_failures.set current_idx
          (s.player_failures.getD current_idx 0 + FAILURES_PER_LOOT) }
    else s
  let s := if s.has_winner then s else do_doctor_phase s
  { s with turn_id := s.turn_id + 1 }

/-- The first phase of a stranger turn: move the stranger one room
counter-clockwise unless it can already attack. -/
def stranger_move (s : MutableGameState) : MutableGameState :=
  let best_action := best_action_allowed s false
  let current_room := s.room_of s.current_player_id
  let new_room_id :=
    if best_action = PlayerAction.Attack then current_room
    else next_room_id current_room (-1) s.common.board.room_ids
  { s with player_room_ids := s.player_room_ids.set s.current_player_id.toNat new_room_id }

/-- Attack resolution as a stranger turn performs it: on a win the winning
side becomes the current player and the winner. -/
def attack_resolve_stranger (s : MutableGameState) : MutableGameState :=
  let r := process_attack s
  if r.1 then
    let winner_id :=
      to_normal_player_id r.2.current_player_id r.2.common.num_normal_players
    { r.2 with current_player_id := winner_id, winner := winner_id }
  else r.2

/-- Attack resolution as a normal turn performs it. -/
def attack_resolve_normal (s : MutableGameState) : MutableGameState :=
  let r := process_attack s
  if r.1 then { r.2 with winner := r.2.current_player_id } else r.2

/-- The move phase of `after_normal_turn`: debit move cards, relocate the
movers, record the turn; also returns the moved-stranger-saw-doctor flag. -/
def normal_move (s : MutableGameState) (turn : SimpleTurn) :
    MutableGameState × Bool :=
  let total_dist := turn_total_dist s turn
  let move_cards_used : ℚ := ((max (total_dist - 1) 0 : Int) : ℚ)
  let current_idx := s.current_player_id.toNat
  let s := { s with
    player_move_cards := s.player_move_cards.set current_idx
      (s.player_move_cards.getD current_idx 0 - move_cards_used) }
  let moved := turn.moves.foldl (fun (acc : List Nat × Bool) mv =>
    let room_id := acc.1.getD mv.player_id.toNat 0
    (acc.1.set mv.player_id.toNat mv.dest_room_id,
      acc.2 || (decide (mv.player_id ≠ s.current_player_id) &&
        sight_at s.common.board.sight room_id s.doctor_room_id)))
    (s.player_room_ids, false)
  ({ s with player_room_ids := moved.1, prev_turn := turn }, moved.2)

/-- The loot action of `after_normal_turn`. -/
def loot_resolve (s : MutableGameState) (current_idx : Nat) :
    MutableGameState :=
  { s with
    player_move_cards := s.player_move_cards.set current_idx
      (s.player_move_cards.getD current_idx 0 + MOVE_CARDS_PER_LOOT)
    player_weapons := s.player_weapons.set current_idx
      (s.player_weapons.getD current_idx 0 + WEAPONS_PER_LOOT)
    player_failures := s.player_failures.set current_idx
      (s.player_failures.getD current_idx 0 + FAILURES_PER_LOOT) }

/-- The shared tail of a turn: advance the doctor unless there is a winner,
then bump the turn counter. -/
def phase_tail (s : MutableGameState) : MutableGameState :=
  let s3 := if s.has_winner then s else do_doctor_phase s
  { s3 with turn_id := s3.turn_id + 1 }

/-- Sum of the `toNat`-clamped entries of a matrix; each matrix-changing
relaxation pass strictly decreases it. -/
def msum (m : List (List Int)) : Nat :=
  (m.map (fun row => (row.map Int.toNat).sum)).sum

/-- The invariant maintained by the relaxation: entries are nonnegative, at
most the sentinel, zero on the diagonal, at most 1 on edges, and realized by
a walk whenever below the sentinel. -/
def RelaxInv (adjacency : List (List Bool)) (m : List (List Int)) : Prop :=
  ∀ r c : Nat, r < adjacency.length → c < adjacency.length →
    0 ≤ dget m r c ∧ dget m r c ≤ 999 ∧ (r = c → dget m r c = 0) ∧
    (has_edge adjacency r c = true → dget m r c ≤ 1) ∧
    (dget m r c < 999 →
      ∃ n : Nat, (n : Int) = dget m r c ∧ has_walk adjacency n r c = true)

/-- Fail-soft soundness of a searched value `r` against the true value `v`
inside the window `(lo, hi)`. -/
def FailSoft (r v lo hi : Fl) : Prop :=
  (r ≤ lo → v ≤ r) ∧ (hi ≤ r → r ≤ v) ∧ (lo < r → r < hi → r = v)

/-! # Theorems -/

theorem Fl.negInf_le (a : Fl) : Fl.negInf ≤ a := trivial

theorem Fl.le_posInf (a : Fl) : a ≤ Fl.posInf := by cases a <;> trivial

theorem Fl.fin_le_fin {a b : ℚ} : Fl.fin a ≤ Fl.fin b ↔ a ≤ b := Iff.rfl

theorem Fl.neg_neg (a : Fl) : a.neg.neg = a := by
  cases a <;> simp [Fl.neg]

theorem Fl.neg_le_neg_iff {a b : Fl} : a.neg ≤ b.neg ↔ b ≤ a := by
  cases a <;> cases b <;>
    simp [Fl.neg, show ∀ x y : Fl, (x ≤ y) = Fl.le x y from fun _ _ => rfl, Fl.le]

theorem Fl.neg_lt_neg_iff {a b : Fl} : a.neg < b.neg ↔ b < a := by
  rw [lt_iff_not_le, lt_iff_not_le, Fl.neg_le_neg_iff]

/-- C9 helper: `possible_turns` immediately returns the empty vector for a
terminal state. -/
theorem possible_turns_of_winner {s : MutableGameState}
    (h : s.has_winner = true) : possible_turns s = [] := by
  simp [possible_turns, h]

/-- C9: a terminal state (one whose winner is set) offers no legal turns:
`possible_turns()` returns the empty list. -/
theorem c9_terminal_state_has_no_turns (s : MutableGameState)
    (h : s.has_winner = true) : possible_turns s = [] :=
  possible_turns_of_winner h

/-- C9 witness: on a concrete terminal state, `possible_turns` is empty. -/
theorem c9_witness : possible_turns { c1_state with winner := 2 } = [] :=
  c9_terminal_state_has_no_turns _ (by decide)

/-- C5/C6 helper: at depth 0 both serial search variants return
`from_state` of the current player together with a visit count of one. -/
theorem find_best_turn_zero {σ τ : Type} (G : GameIfc σ τ) (cancelled : Bool)
    (s : σ) :
    find_best_turn G cancelled s 0 = (G.from_state (G.current_player_id s) s, 1) := by
  unfold find_best_turn
  split <;> rfl

/-- C5 (amended): with depth limit 0, `find_best_turn` returns an appraisal
exactly equal to the current state's heuristic score for the current player
and visits exactly one state, but the returned turn is the state's own
`prev_turn()` (as set by `AppraisedPlayerTurn::from_state`), not an absent
move. -/
theorem c5_depth0_returns_heuristic_and_prev_turn {σ τ : Type}
    (G : GameIfc σ τ) (cancelled : Bool) (s : σ) :
    (find_best_turn G cancelled s 0).1.appraisal =
        G.heuristic_score s (G.current_player_id s) ∧
      (find_best_turn G cancelled s 0).1.turn = G.prev_turn s ∧
      (find_best_turn G cancelled s 0).2 = 1 := by
  rw [find_best_turn_zero]
  exact ⟨rfl, rfl, rfl⟩

/-- C5 counterexample: on a concrete 2-normal-player game state, the depth-0
search result is paired with the state's previous turn, not with no move. -/
theorem c5_counterexample_depth0_turn_not_none :
    (find_best_turn (MGS_game 16) false c1_state 0).1.turn =
        some SimpleTurn.invalid_default ∧
      (find_best_turn (MGS_game 16) false c1_state 0).1.turn ≠ none := by
  constructor
  · decide
  · decide


/-- C6 helper: with a pre-tripped token the two-player sibling loop stops
after its first child evaluation. -/
theorem find_best_turn_two_players_go_visits {σ τ : Type} (G : GameIfc σ τ)
    (recur : σ → Fl → Fl → AppraisedPlayerTurn τ σ × Nat)
    (curr_player_id : Int) (beta : Fl) (K : Nat)
    (hrec : ∀ ch a b, (recur ch a b).2 ≤ K) :
    ∀ (children : List σ) (best : AppraisedPlayerTurn τ σ) (alpha : Fl) (n : Nat),
      (find_best_turn_two_players_go G true recur curr_player_id beta children
        best alpha n).2 ≤ n + K := by
  intro children best alpha n
  cases children with
  | nil => simp [find_best_turn_two_players_go]
  | cons child rest =>
    have h1 := hrec child alpha beta
    have h2 := hrec child (Fl.neg beta) (Fl.neg alpha)
    simp only [find_best_turn_two_players_go]
    repeat' split
    all_goals simp_all

/-- C6 helper: with a pre-tripped token the many-player sibling loop stops
after its first child evaluation. -/
theorem find_best_turn_many_players_go_visits {σ τ : Type} (G : GameIfc σ τ)
    (recur : σ → AppraisedPlayerTurn τ σ × Nat)
    (curr_player_id analysis_player_id : Int) (K : Nat)
    (hrec : ∀ ch, (recur ch).2 ≤ K) :
    ∀ (children : List σ) (best : AppraisedPlayerTurn τ σ) (n : Nat),
      (find_best_turn_many_players_go G true recur curr_player_id
        analysis_player_id children best n).2 ≤ n + K := by
  intro children best n
  cases children with
  | nil => simp [find_best_turn_many_players_go]
  | cons child rest =>
    have h1 := hrec child
    simp only [find_best_turn_many_players_go]
    repeat' split
    all_goals simp_all

/-- C6 helper: visit bound for the cancelled two-player search. -/
theorem find_best_turn_two_players_visits_cancelled {σ τ : Type}
    (G : GameIfc σ τ) :
    ∀ (L : Nat) (s : σ) (a b : Fl),
      (find_best_turn_two_players G true L s a b).2 ≤ L + 1 := by
  intro L
  induction L with
  | zero => intro s a b; simp [find_best_turn_two_players]
  | succ L ih =>
    intro s a b
    simp only [find_best_turn_two_players]
    split
    · simp
    · have := find_best_turn_two_players_go_visits G
        (fun ch ca cb => find_best_turn_two_players G true L ch ca cb)
        (G.current_player_id s) b (L + 1) (fun ch ca cb => ih ch ca cb)
        (if 0 < L then
          stable_sort (child_sort_le G (G.current_player_id s))
            ((G.possible_turns s).map (G.after_turn s))
         else (G.possible_turns s).map (G.after_turn s))
        AppraisedPlayerTurn.empty_minimum a 1
      omega

/-- C6 helper: visit bound for the cancelled many-player search. -/
theorem find_best_turn_many_players_visits_cancelled {σ τ : Type}
    (G : GameIfc σ τ) :
    ∀ (L : Nat) (pid : Int) (s : σ),
      (find_best_turn_many_players G true L pid s).2 ≤ L + 1 := by
  intro L
  induction L with
  | zero => intro pid s; simp [find_best_turn_many_players]
  | succ L ih =>
    intro pid s
    simp only [find_best_turn_many_players]
    split
    · simp
    · have := find_best_turn_many_players_go_visits G
        (fun ch => find_best_turn_many_players G true L (G.current_player_id s) ch)
        (G.current_player_id s) pid (L + 1) (fun ch => ih (G.current_player_id s) ch)
        ((G.possible_turns s).map (G.after_turn s))
        AppraisedPlayerTurn.empty_minimum 1
      omega

/-- C6 (amended): if the cancellation token is already tripped before
`find_best_turn` is invoked, the search is not an error: it still evaluates
the first child at each recursion level (the token is polled only after a
child is evaluated) and returns the best result accumulated so far, visiting
at most `depth + 1` states; the count equals one exactly when the depth limit
is 0. -/
theorem c6_cancelled_visits_at_most_depth_plus_one {σ τ : Type}
    (G : GameIfc σ τ) (s : σ) (L : Nat) :
    (find_best_turn G true s L).2 ≤ L + 1 ∧
      (find_best_turn G true s 0).2 = 1 := by
  constructor
  · unfold find_best_turn
    split
    · exact find_best_turn_two_players_visits_cancelled G L s _ _
    · exact find_best_turn_many_players_visits_cancelled G L _ s
  · rw [find_best_turn_zero]

/-- C6 counterexample: on a concrete 2-normal-player state with depth limit
1 and a pre-tripped token, `find_best_turn` visits two states, not exactly
one, and its result is not empty (it carries a move). -/
theorem c6_counterexample_visits_two_states :
    (find_best_turn (MGS_game 16) true c1_state 1).2 = 2 ∧
      (find_best_turn (MGS_game 16) true c1_state 1).1.turn ≠ none := by
  constructor
  · decide
  · decide

/-- C7 helper: the truncated remainder `Int.tmod a b` is strictly above `-b`
for a positive modulus `b`. -/
theorem neg_lt_tmod (a : Int) {b : Int} (hb : 0 < b) : -b < a.tmod b := by
  match a with
  | .ofNat m =>
    have h := Int.tmod_nonneg b (show (0:Int) ≤ .ofNat m from Int.ofNat_nonneg m)
    omega
  | .negSucc m =>
    match b, hb with
    | .ofNat (n+1), _ =>
      have h : Int.tmod (.negSucc m) (.ofNat (n+1)) = -(((m+1) % (n+1) : Nat) : Int) := rfl
      rw [h]
      have h2 := Nat.mod_lt (m+1) (show 0 < n+1 by omega)
      simp only [Int.ofNat_eq_coe]
      omega

/-- C7 helper: `positive_remainder` computes the mathematical (Euclidean)
remainder, for a positive modulus. -/
theorem positive_remainder_spec (x : Int) (m : Nat) (hm : 0 < m) :
    (positive_remainder x m : Int) = x % (m : Int) := by
  have hm' : (0:Int) < (m:Int) := by exact_mod_cast hm
  unfold positive_remainder
  have hcong : (x.tmod (m:Int)) % (m:Int) = x % (m:Int) := by
    have hdef := Int.tmod_def x (m:Int)
    rw [hdef]
    rw [Int.sub_emod, Int.mul_emod_right]
    simp [Int.emod_emod_of_dvd]
  by_cases h : 0 ≤ x.tmod (m:Int)
  · have hlt := Int.tmod_lt_of_pos x hm'
    simp only [h, if_pos]
    rw [Int.toNat_of_nonneg h, ← hcong, Int.emod_eq_of_lt h hlt]
  · push_neg at h
    have hgt := neg_lt_tmod x hm'
    simp only [if_neg (not_le.2 h)]
    have h0 : (0:Int) ≤ x.tmod (m:Int) + (m:Int) := by omega
    have hlt : x.tmod (m:Int) + (m:Int) < (m:Int) := by omega
    rw [Int.toNat_of_nonneg h0]
    calc x.tmod (m:Int) + (m:Int)
        = (x.tmod (m:Int) + (m:Int)) % (m:Int) := (Int.emod_eq_of_lt h0 hlt).symm
      _ = x.tmod (m:Int) % (m:Int) := by
            rw [Int.add_emod, Int.emod_self, add_zero, Int.emod_emod_of_dvd _ dvd_rfl]
      _ = x % (m:Int) := hcong

/-- C7 helper: `positive_remainder` stays below a positive modulus. -/
theorem positive_remainder_lt (x : Int) {m : Nat} (hm : 0 < m) :
    positive_remainder x m < m := by
  have h := positive_remainder_spec x m hm
  have hm' : (0:Int) < (m:Int) := by exact_mod_cast hm
  have := Int.emod_lt_of_pos x hm'
  omega

/-- C7: for any room id `r` present in the board room-id list (with distinct
room ids, as boards have) and any signed delta `k`, stepping `next_room_id`
by `k` and then by `-k` returns to `r`, and the intermediate room id is
itself a member of the room-id list. -/
theorem c7_next_room_id_roundtrip (room_ids : List Nat) (r : Nat) (k : Int)
    (hmem : r ∈ room_ids) (hnd : room_ids.Nodup) :
    next_room_id (next_room_id r k room_ids) (-k) room_ids = r ∧
    next_room_id r k room_ids ∈ room_ids := by
  have hlen : 0 < room_ids.length := List.length_pos.2 (List.ne_nil_of_mem hmem)
  have hidx : room_ids.indexOf r < room_ids.length := List.indexOf_lt_length.2 hmem
  set n := room_ids.length with hn
  set idx := room_ids.indexOf r with hidxdef
  set j := positive_remainder ((idx : Int) + k) n with hj
  have hjlt : j < n := positive_remainder_lt _ hlen
  have hr1 : next_room_id r k room_ids = room_ids[j] := by
    simp [next_room_id, ← hidxdef, ← hn, ← hj, List.getElem?_eq_getElem hjlt]
  have hr1mem : next_room_id r k room_ids ∈ room_ids := by
    rw [hr1]; exact List.getElem_mem _
  refine ⟨?_, hr1mem⟩
  have hidx1 : room_ids.indexOf (room_ids[j]) = j := List.indexOf_getElem hnd j hjlt
  have hjspec : ((j : Nat) : Int) = ((idx : Int) + k) % (n : Int) :=
    positive_remainder_spec _ _ hlen
  have hback : positive_remainder ((j : Int) + (-k)) n = idx := by
    have hspec2 : ((positive_remainder ((j : Int) + (-k)) n : Nat) : Int)
        = ((j : Int) + (-k)) % (n : Int) := positive_remainder_spec _ _ hlen
    have hlt2 : positive_remainder ((j : Int) + (-k)) n < n :=
      positive_remainder_lt _ hlen
    have hcong : ((j : Int) + (-k)) % (n : Int) = (idx : Int) % (n : Int) := by
      rw [hjspec, Int.add_emod, Int.emod_emod_of_dvd _ dvd_rfl, ← Int.add_emod]
      ring_nf
    have hidxmod : (idx : Int) % (n : Int) = (idx : Int) := by
      apply Int.emod_eq_of_lt (Int.ofNat_nonneg idx)
      exact_mod_cast hidx
    omega
  rw [hr1]
  simp only [next_room_id, hidx1, ← hn, hback]
  rw [List.getD_eq_getElem _ _ hidx]
  exact List.getElem_indexOf hidx

/-- C7 witness: a concrete roundtrip on the room-id list `[1, 2, 3]` with a
negative delta larger than the list length. -/
theorem c7_witness :
    next_room_id (next_room_id 2 (-5) [1,2,3]) (-(-5)) [1,2,3] = 2 ∧
    next_room_id 2 (-5) [1,2,3] ∈ [1,2,3] :=
  c7_next_room_id_roundtrip [1,2,3] 2 (-5) (by decide) (by decide)

theorem check_moves_ids_err (s : MutableGameState) (moves : List PlayerMove)
    (h : ∃ mv ∈ moves, (s.common.num_all_players : Int) ≤ mv.player_id ∨
      mv.dest_room_id ∉ s.common.board.room_ids) :
    ∃ e, check_moves_ids s moves = Except.error e := by
  induction moves with
  | nil => simp at h
  | cons mv rest ih =>
    rw [check_moves_ids]
    by_cases h1 : (s.common.num_all_players : Int) ≤ mv.player_id
    · exact ⟨_, by rw [if_pos h1]⟩
    · rw [if_neg h1]
      by_cases h2 : mv.dest_room_id ∈ s.common.board.room_ids
      · have hmv : ∃ m ∈ rest, (s.common.num_all_players : Int) ≤ m.player_id ∨
            m.dest_room_id ∉ s.common.board.room_ids := by
          rcases h with ⟨m, hm, hbad⟩
          rcases List.mem_cons.1 hm with hEq | hmem
          · subst hEq
            rcases hbad with hb | hb
            · exact absurd hb h1
            · exact absurd h2 hb
          · exact ⟨m, hmem, hbad⟩
        rcases ih hmv with ⟨e, he⟩
        exact ⟨e, by simp [h2, he]⟩
      · exact ⟨"invalid roomId " ++ toString mv.dest_room_id, by simp [h2]⟩

theorem check_moves_movers_err (s : MutableGameState) (moves : List PlayerMove)
    (h : ∃ mv ∈ moves, mv.player_id ≠ s.current_player_id ∧
      s.common.get_player_type mv.player_id ≠ PlayerType.Stranger) :
    ∃ e, check_moves_movers s moves = Except.error e := by
  induction moves with
  | nil => simp at h
  | cons mv rest ih =>
    rw [check_moves_movers]
    by_cases h1 : (s.player_room_ids.length : Int) ≤ mv.player_id
    · exact ⟨_, by rw [if_pos h1]⟩
    · rw [if_neg h1]
      by_cases h2 : mv.player_id ≠ s.current_player_id ∧
          s.common.get_player_type mv.player_id ≠ PlayerType.Stranger
      · exact ⟨_, by rw [if_pos h2]⟩
      · rw [if_neg h2]
        apply ih
        rcases h with ⟨m, hm, hbad⟩
        rcases List.mem_cons.1 hm with hEq | hmem
        · subst hEq; exact absurd hbad h2
        · exact ⟨m, hmem, hbad⟩

theorem check_normal_turn_after_ids (s : MutableGameState) (t : SimpleTurn)
    (hid : check_moves_ids s t.moves = Except.ok ()) :
    check_normal_turn s t =
      if s.player_move_cards.getD s.current_player_id.toNat 0 <
          ((max (turn_total_dist s t - 1) 0 : Int) : ℚ) then
        Except.error ("player " ++ s.common.player_text s.current_player_id ++
          " used too many move points (" ++ toString (turn_total_dist s t) ++ ")")
      else check_moves_movers s t.moves := by
  unfold check_normal_turn
  rw [hid]

/-- C4: a turn that references a player id outside the roster, a room id not
on the board, exceeds the one-free-step move budget, or moves a piece that is
neither the active player nor a stranger, is rejected by `check_normal_turn`
with a descriptive reason. -/
theorem c4_check_normal_turn_rejects (s : MutableGameState) (t : SimpleTurn)
    (h : has_bad_player_id s t ∨ has_bad_room_id s t ∨ over_budget s t ∨
      has_bad_mover s t) :
    ∃ e, check_normal_turn s t = Except.error e := by
  rcases h with h | h | h | h
  · rcases check_moves_ids_err s t.moves
      (by rcases h with ⟨mv, hmv, hb⟩; exact ⟨mv, hmv, Or.inl hb⟩) with ⟨e, he⟩
    exact ⟨e, by unfold check_normal_turn; rw [he]⟩
  · rcases check_moves_ids_err s t.moves
      (by rcases h with ⟨mv, hmv, hb⟩; exact ⟨mv, hmv, Or.inr hb⟩) with ⟨e, he⟩
    exact ⟨e, by unfold check_normal_turn; rw [he]⟩
  · cases hid : check_moves_ids s t.moves with
    | error e => exact ⟨e, by unfold check_normal_turn; rw [hid]⟩
    | ok u =>
      cases u
      have h' : s.player_move_cards.getD s.current_player_id.toNat 0 <
          ((max (turn_total_dist s t - 1) 0 : Int) : ℚ) := h
      exact ⟨_, by rw [check_normal_turn_after_ids s t hid, if_pos h']⟩
  · cases hid : check_moves_ids s t.moves with
    | error e => exact ⟨e, by unfold check_normal_turn; rw [hid]⟩
    | ok u =>
      cases u
      by_cases hb : s.player_move_cards.getD s.current_player_id.toNat 0 <
          ((max (turn_total_dist s t - 1) 0 : Int) : ℚ)
      · exact ⟨_, by rw [check_normal_turn_after_ids s t hid, if_pos hb]⟩
      · rcases check_moves_movers_err s t.moves h with ⟨e, he⟩
        exact ⟨e, by rw [check_normal_turn_after_ids s t hid, if_neg hb, he]⟩

/-- C4 witness: on a concrete state, a turn moving an out-of-roster player id
is rejected. -/
theorem c4_witness :
    ∃ e, check_normal_turn c1_state (SimpleTurn.single 9 4) = Except.error e :=
  c4_check_normal_turn_rejects c1_state (SimpleTurn.single 9 4)
    (Or.inl (by decide))

theorem getD_pos_lt {l : List ℚ} {i : Nat} (h : 0 < l.getD i 0) :
    i < l.length := by
  by_contra hn
  rw [List.getD_eq_getElem?_getD, List.getElem?_eq_none (by omega)] at h
  simp at h

theorem getD_one_le_lt {l : List ℚ} {i : Nat} (h : 1 ≤ l.getD i 0) :
    i < l.length := by
  by_contra hn
  rw [List.getD_eq_getElem?_getD, List.getElem?_eq_none (by omega)] at h
  norm_num at h

theorem getD_set_self (l : List ℚ) (i : Nat) (v : ℚ) (h : i < l.length) :
    (l.set i v).getD i 0 = v := by
  rw [List.getD_eq_getElem?_getD, List.getElem?_set_self (by simpa using h)]
  rfl

theorem getD_set_ne (l : List ℚ) {i j : Nat} (v : ℚ) (h : j ≠ i) :
    (l.set i v).getD j 0 = l.getD j 0 := by
  rw [List.getD_eq_getElem?_getD, List.getD_eq_getElem?_getD,
    List.getElem?_set_ne (fun hh => h hh.symm)]

theorem defend_spec_budget (idx : Nat) (b : ℚ) (cards : List ℚ) (rate : ℚ) :
    (defend_with_card_type idx b cards rate).1 =
      (spec_spend (cards.getD idx 0) b rate).2 := by
  unfold defend_with_card_type spec_spend
  by_cases h : 0 < b ∧ 0 < cards.getD idx 0
  · rw [if_pos h, if_pos ⟨h.1, h.2⟩]
  · rw [if_neg h, if_neg (fun hh => h ⟨hh.1, hh.2⟩)]

theorem defend_spec_cards (idx : Nat) (b : ℚ) (cards : List ℚ) (rate : ℚ) :
    (defend_with_card_type idx b cards rate).2.getD idx 0 =
      (spec_spend (cards.getD idx 0) b rate).1 := by
  unfold defend_with_card_type spec_spend
  by_cases h : 0 < b ∧ 0 < cards.getD idx 0
  · rw [if_pos h, if_pos ⟨h.1, h.2⟩]
    exact getD_set_self _ _ _ (getD_pos_lt h.2)
  · rw [if_neg h, if_neg (fun hh => h ⟨hh.1, hh.2⟩)]

theorem defend_other_cards (idx : Nat) (b : ℚ) (cards : List ℚ) (rate : ℚ)
    {j : Nat} (h : j ≠ idx) :
    (defend_with_card_type idx b cards rate).2.getD j 0 = cards.getD j 0 := by
  unfold defend_with_card_type
  by_cases hc : 0 < b ∧ 0 < cards.getD idx 0
  · rw [if_pos hc]
    exact getD_set_ne _ _ h
  · rw [if_neg hc]

theorem use_weapon_strength (weapons : List ℚ) (idx : Nat) (b : ℚ) :
    (use_weapon weapons idx b).2 =
      if 1 ≤ weapons.getD idx 0 then b + STRENGTH_PER_WEAPON else b := by
  unfold use_weapon
  by_cases h : 1 ≤ weapons.getD idx 0
  · rw [if_pos h, if_pos h]
  · rw [if_neg h, if_neg h]

theorem use_weapon_self (weapons : List ℚ) (idx : Nat) (b : ℚ) :
    (use_weapon weapons idx b).1.getD idx 0 =
      if 1 ≤ weapons.getD idx 0 then weapons.getD idx 0 - 1
      else weapons.getD idx 0 := by
  unfold use_weapon
  by_cases h : 1 ≤ weapons.getD idx 0
  · rw [if_pos h, if_pos h]
    exact getD_set_self _ _ _ (getD_one_le_lt h)
  · rw [if_neg h, if_neg h]

theorem use_weapon_other (weapons : List ℚ) (idx : Nat) (b : ℚ) {j : Nat}
    (h : j ≠ idx) :
    (use_weapon weapons idx b).1.getD j 0 = weapons.getD j 0 := by
  unfold use_weapon
  by_cases hc : 1 ≤ weapons.getD idx 0
  · rw [if_pos hc]
    exact getD_set_ne _ _ h
  · rw [if_neg hc]

theorem process_attack_strengths (s : MutableGameState) :
    (process_attack s).2.player_strengths =
      s.player_strengths.set s.current_player_id.toNat
        (s.player_strengths.getD s.current_player_id.toNat 0 + 1) := by
  unfold process_attack
  dsimp only
  repeat' split
  all_goals rfl

theorem process_attack_strangers (s : MutableGameState)
    (hstr : s.common.has_strangers = true)
    (hnn : (0 : Int) ≤ s.player_strengths.getD s.current_player_id.toNat 0) :
    process_attack s =
      (let idx := s.current_player_id.toNat
       let b : ℚ := ((s.player_strengths.getD idx 0 : Int) : ℚ)
       let uw := if s.is_normal_turn then use_weapon s.player_weapons idx b
                 else (s.player_weapons, b)
       let d := (opposing_normal_player s.current_player_id).toNat
       let fw := defend_with_card_type d uw.2 s.player_failures CLOVERS_PER_FAILURE
       let ww := defend_with_card_type d fw.1 uw.1 CLOVERS_PER_WEAPON
       let mw := defend_with_card_type d ww.1 s.player_move_cards CLOVERS_PER_MOVE_CARD
       (decide (0 < mw.1),
        { s with
          player_strengths :=
            s.player_strengths.set idx (s.player_strengths.getD idx 0 + 1)
          attacker_hist := s.attacker_hist ++ [s.current_player_id]
          player_failures := fw.2
          player_weapons := ww.2
          player_move_cards := mw.2 })) := by
  have hb : ¬ (((s.player_strengths.getD s.current_player_id.toNat 0 : Int) : ℚ) < 0) := by
    rw [not_lt]
    exact_mod_cast hnn
  unfold process_attack
  simp only [hstr, hb, MutableGameState.is_normal_turn, if_true, if_false,
    ite_false, ite_true, if_neg hb]

/-- C2: in a match with auxiliaries (strangers), `process_attack` increments
the attacker's integer strength by exactly 1 regardless of outcome; the
attacker spends one weapon for the fixed strength bonus only when a normal
player is attacking, the single opposing normal player then spends failure,
then weapon, then move cards at the fixed per-card exchange rates until the
budget is exhausted or cards run out, and the attacker wins iff the remaining
budget is still positive — all as computed by the spec-modelled
`spec_auxiliary_attack`. -/
theorem c2_process_attack_combat (s : MutableGameState)
    (hstr : s.common.has_strangers = true)
    (hcur : s.current_player_id = 0 ∨ s.current_player_id = 1 ∨
      s.current_player_id = 2 ∨ s.current_player_id = 3)
    (hnn : (0 : Int) ≤ s.player_strengths.getD s.current_player_id.toNat 0) :
    (process_attack s).2.player_strengths =
      s.player_strengths.set s.current_player_id.toNat
        (s.player_strengths.getD s.current_player_id.toNat 0 + 1) ∧
    (process_attack s).1 = (attack_spec_result s).1 ∧
    (process_attack s).2.player_weapons.getD s.current_player_id.toNat 0 =
      (attack_spec_result s).2.1 ∧
    (process_attack s).2.player_failures.getD (attack_defender s) 0 =
      (attack_spec_result s).2.2.1 ∧
    (process_attack s).2.player_weapons.getD (attack_defender s) 0 =
      (attack_spec_result s).2.2.2.1 ∧
    (process_attack s).2.player_move_cards.getD (attack_defender s) 0 =
      (attack_spec_result s).2.2.2.2 := by
  refine ⟨process_attack_strengths s, ?_⟩
  have hne : s.current_player_id.toNat ≠ attack_defender s := by
    rcases hcur with h | h | h | h <;> rw [attack_defender, h] <;> decide
  rw [process_attack_strangers s hstr hnn]
  dsimp only
  set idx := s.current_player_id.toNat with hidx
  set d := attack_defender s with hd
  have hd' : (opposing_normal_player s.current_player_id).toNat = d := rfl
  rw [hd']
  set b : ℚ := ((s.player_strengths.getD idx 0 : Int) : ℚ) with hbdef
  set uw := (if s.is_normal_turn = true then use_weapon s.player_weapons idx b
    else (s.player_weapons, b)) with huw
  have huw2 : uw.2 =
      if s.is_normal_turn = true ∧ 1 ≤ s.player_weapons.getD idx 0 then
        b + STRENGTH_PER_WEAPON else b := by
    rw [huw]
    by_cases hn : s.is_normal_turn = true
    · rw [if_pos hn, use_weapon_strength]
      by_cases hw : 1 ≤ s.player_weapons.getD idx 0
      · rw [if_pos hw, if_pos ⟨hn, hw⟩]
      · rw [if_neg hw, if_neg (fun hh => hw hh.2)]
    · rw [if_neg hn, if_neg (fun hh => hn hh.1)]
  have huw_self : uw.1.getD idx 0 =
      if s.is_normal_turn = true ∧ 1 ≤ s.player_weapons.getD idx 0 then
        s.player_weapons.getD idx 0 - 1 else s.player_weapons.getD idx 0 := by
    rw [huw]
    by_cases hn : s.is_normal_turn = true
    · rw [if_pos hn, use_weapon_self]
      by_cases hw : 1 ≤ s.player_weapons.getD idx 0
      · rw [if_pos hw, if_pos ⟨hn, hw⟩]
      · rw [if_neg hw, if_neg (fun hh => hw hh.2)]
    · rw [if_neg hn, if_neg (fun hh => hn hh.1)]
  have huw_other : uw.1.getD d 0 = s.player_weapons.getD d 0 := by
    rw [huw]
    by_cases hn : s.is_normal_turn = true
    · rw [if_pos hn]
      exact use_weapon_other _ _ _ (fun hh => hne (hh ▸ rfl))
    · rw [if_neg hn]
  set fw := defend_with_card_type d uw.2 s.player_failures CLOVERS_PER_FAILURE
    with hfw
  set ww := defend_with_card_type d fw.1 uw.1 CLOVERS_PER_WEAPON with hww
  set mw := defend_with_card_type d ww.1 s.player_move_cards CLOVERS_PER_MOVE_CARD
    with hmw
  have hfw1 : fw.1 = (spec_spend (s.player_failures.getD d 0) uw.2
      CLOVERS_PER_FAILURE).2 := by
    rw [hfw, defend_spec_budget]
  have hfw2 : fw.2.getD d 0 = (spec_spend (s.player_failures.getD d 0) uw.2
      CLOVERS_PER_FAILURE).1 := by
    rw [hfw, defend_spec_cards]
  have hww1 : ww.1 = (spec_spend (s.player_weapons.getD d 0) fw.1
      CLOVERS_PER_WEAPON).2 := by
    rw [hww, defend_spec_budget, huw_other]
  have hww2 : ww.2.getD d 0 = (spec_spend (s.player_weapons.getD d 0) fw.1
      CLOVERS_PER_WEAPON).1 := by
    rw [hww, defend_spec_cards, huw_other]
  have hww_idx : ww.2.getD idx 0 = uw.1.getD idx 0 := by
    rw [hww, defend_other_cards _ _ _ _ hne]
  have hmw1 : mw.1 = (spec_spend (s.player_move_cards.getD d 0) ww.1
      CLOVERS_PER_MOVE_CARD).2 := by
    rw [hmw, defend_spec_budget]
  have hmw2 : mw.2.getD d 0 = (spec_spend (s.player_move_cards.getD d 0) ww.1
      CLOVERS_PER_MOVE_CARD).1 := by
    rw [hmw, defend_spec_cards]
  rw [attack_spec_result, spec_auxiliary_attack]
  dsimp only
  refine ⟨?_, ?_, ?_, ?_, ?_⟩
  · rw [hmw1, hww1, hfw1, huw2]
  · dsimp only
    rw [hww_idx, huw_self]
  · dsimp only
    rw [hfw2, huw2]
  · dsimp only
    rw [hww2, hfw1, huw2]
  · dsimp only
    rw [hmw2, hww1, hfw1, huw2]

theorem c2_witness :
    (process_attack c1_state).2.player_strengths =
      c1_state.player_strengths.set c1_state.current_player_id.toNat
        (c1_state.player_strengths.getD c1_state.current_player_id.toNat 0 + 1) ∧
    (process_attack c1_state).1 = (attack_spec_result c1_state).1 ∧
    (process_attack c1_state).2.player_weapons.getD
        c1_state.current_player_id.toNat 0 = (attack_spec_result c1_state).2.1 ∧
    (process_attack c1_state).2.player_failures.getD (attack_defender c1_state) 0 =
      (attack_spec_result c1_state).2.2.1 ∧
    (process_attack c1_state).2.player_weapons.getD (attack_defender c1_state) 0 =
      (attack_spec_result c1_state).2.2.2.1 ∧
    (process_attack c1_state).2.player_move_cards.getD (attack_defender c1_state) 0 =
      (attack_spec_result c1_state).2.2.2.2 :=
  c2_process_attack_combat c1_state (by decide) (Or.inl (by decide)) (by decide)

theorem nonneg_getD {l : List ℚ} (h : ∀ q ∈ l, 0 ≤ q) (i : Nat) :
    0 ≤ l.getD i 0 := by
  by_cases hi : i < l.length
  · rw [List.getD_eq_getElem _ _ hi]
    exact h _ (List.getElem_mem _)
  · rw [List.getD_eq_getElem?_getD, List.getElem?_eq_none (by omega)]
    simp

theorem nonneg_set {l : List ℚ} (h : ∀ q ∈ l, 0 ≤ q) {v : ℚ} (hv : 0 ≤ v)
    (i : Nat) : ∀ q ∈ l.set i v, 0 ≤ q := by
  intro q hq
  rcases List.mem_or_eq_of_mem_set hq with hm | he
  · exact h q hm
  · exact he ▸ hv

theorem nonneg_defend {idx : Nat} {b : ℚ} {cards : List ℚ} {rate : ℚ}
    (h : ∀ q ∈ cards, 0 ≤ q) :
    ∀ q ∈ (defend_with_card_type idx b cards rate).2, 0 ≤ q := by
  unfold defend_with_card_type
  by_cases hc : 0 < b ∧ 0 < cards.getD idx 0
  · rw [if_pos hc]
    exact nonneg_set h (by
      have := min_le_left (cards.getD idx 0) (b / rate)
      linarith) idx
  · rw [if_neg hc]
    exact h

theorem nonneg_use_weapon {weapons : List ℚ} {idx : Nat} {b : ℚ}
    (h : ∀ q ∈ weapons, 0 ≤ q) :
    ∀ q ∈ (use_weapon weapons idx b).1, 0 ≤ q := by
  unfold use_weapon
  by_cases hc : 1 ≤ weapons.getD idx 0
  · rw [if_pos hc]
    exact nonneg_set h (by linarith) idx
  · rw [if_neg hc]
    exact h

theorem nonneg_defend_round {idx : Nat} {b : ℚ}
    {failures weapons move_cards : List ℚ}
    (hf : ∀ q ∈ failures, 0 ≤ q) (hw : ∀ q ∈ weapons, 0 ≤ q)
    (hm : ∀ q ∈ move_cards, 0 ≤ q) :
    let r := defend_round idx b failures weapons move_cards
    (∀ q ∈ r.2.1, 0 ≤ q) ∧ (∀ q ∈ r.2.2.1, 0 ≤ q) ∧ (∀ q ∈ r.2.2.2, 0 ≤ q) := by
  exact ⟨nonneg_defend hf, nonneg_defend hw, nonneg_defend hm⟩

theorem nonneg_fold {seq : List Int} {b : ℚ}
    {failures weapons move_cards : List ℚ}
    (hf : ∀ q ∈ failures, 0 ≤ q) (hw : ∀ q ∈ weapons, 0 ≤ q)
    (hm : ∀ q ∈ move_cards, 0 ≤ q) :
    let r := attack_defenders_fold seq b failures weapons move_cards
    (∀ q ∈ r.2.2.1, 0 ≤ q) ∧ (∀ q ∈ r.2.2.2.1, 0 ≤ q) ∧
      (∀ q ∈ r.2.2.2.2, 0 ≤ q) := by
  induction seq generalizing b failures weapons move_cards with
  | nil =>
    intro r
    unfold attack_defenders_fold
    by_cases hb : 0 < b
    · rw [if_pos hb]; exact ⟨hf, hw, hm⟩
    · rw [if_neg hb]; exact ⟨hf, hw, hm⟩
  | cons defender rest ih =>
    intro r
    unfold attack_defenders_fold
    by_cases hb : 0 < b
    · rw [if_pos hb]
      exact ih (nonneg_defend hf) (nonneg_defend hw) (nonneg_defend hm)
    · rw [if_neg hb]; exact ⟨hf, hw, hm⟩

theorem nonneg_process_attack {s : MutableGameState} (h : nonneg_cards s) :
    nonneg_cards (process_attack s).2 := by
  obtain ⟨hm, hw, hf⟩ := h
  unfold process_attack nonneg_cards
  dsimp only
  repeat' split
  all_goals refine ⟨?_, ?_, ?_⟩
  all_goals first
    | exact hm
    | exact hw
    | exact hf
    | exact nonneg_defend hm
    | exact nonneg_defend hf
    | exact nonneg_defend (nonneg_use_weapon hw)
    | exact nonneg_defend hw
    | exact nonneg_use_weapon hw
    | exact (nonneg_fold hf (nonneg_use_weapon hw) hm).1
    | exact (nonneg_fold hf (nonneg_use_weapon hw) hm).2.1
    | exact (nonneg_fold hf (nonneg_use_weapon hw) hm).2.2
    | exact (nonneg_fold hf hw hm).1
    | exact (nonneg_fold hf hw hm).2.1
    | exact (nonneg_fold hf hw hm).2.2

theorem do_doctor_phase_cards (s : MutableGameState) :
    (do_doctor_phase s).player_move_cards = s.player_move_cards ∧
    (do_doctor_phase s).player_weapons = s.player_weapons ∧
    (do_doctor_phase s).player_failures = s.player_failures := by
  unfold do_doctor_phase
  dsimp only
  repeat' split
  all_goals exact ⟨rfl, rfl, rfl⟩

theorem nonneg_do_doctor_phase {s : MutableGameState} (h : nonneg_cards s) :
    nonneg_cards (do_doctor_phase s) := by
  obtain ⟨hm, hw, hf⟩ := h
  obtain ⟨e1, e2, e3⟩ := do_doctor_phase_cards s
  exact ⟨e1 ▸ hm, e2 ▸ hw, e3 ▸ hf⟩

theorem after_stranger_turn_succ (fuel : Nat) (s : MutableGameState) :
    after_stranger_turn (fuel + 1) s =
      if (stranger_step s).has_winner = false ∧
          (stranger_step s).is_normal_turn = false then
        after_stranger_turn fuel (stranger_step s)
      else stranger_step s := rfl

theorem nonneg_stranger_step {s : MutableGameState} (h : nonneg_cards s) :
    nonneg_cards (stranger_step s) := by
  obtain ⟨hm, hw, hf⟩ := h
  unfold stranger_step
  dsimp only
  repeat' split
  all_goals first
    | exact ⟨hm, hw, hf⟩
    | exact nonneg_process_attack ⟨hm, hw, hf⟩
    | exact nonneg_do_doctor_phase ⟨hm, hw, hf⟩
    | exact nonneg_do_doctor_phase (nonneg_process_attack ⟨hm, hw, hf⟩)

theorem nonneg_after_stranger_turn (fuel : Nat) {s : MutableGameState}
    (h : nonneg_cards s) : nonneg_cards (after_stranger_turn fuel s) := by
  induction fuel generalizing s with
  | zero => exact h
  | succ fuel ih =>
    rw [after_stranger_turn_succ]
    split
    · exact ih (nonneg_stranger_step h)
    · exact nonneg_stranger_step h

theorem check_ok_budget {s : MutableGameState} {t : SimpleTurn}
    (hchk : check_normal_turn s t = Except.ok ()) :
    ¬ (s.player_move_cards.getD s.current_player_id.toNat 0 <
      ((max (turn_total_dist s t - 1) 0 : Int) : ℚ)) := by
  intro hb
  cases hid : check_moves_ids s t.moves with
  | error e =>
    unfold check_normal_turn at hchk
    rw [hid] at hchk
    cases hchk
  | ok u =>
    cases u
    rw [check_normal_turn_after_ids s t hid, if_pos hb] at hchk
    cases hchk

theorem nonneg_after_normal_turn (fuel : Nat) {s : MutableGameState}
    {t : SimpleTurn} (hchk : check_normal_turn s t = Except.ok ())
    (h : nonneg_cards s) : nonneg_cards (after_normal_turn fuel s t) := by
  obtain ⟨hm, hw, hf⟩ := h
  have hsub : (0:ℚ) ≤ s.player_move_cards.getD s.current_player_id.toNat 0 -
      ((max (turn_total_dist s t - 1) 0 : Int) : ℚ) := by
    have hb := not_lt.1 (check_ok_budget hchk)
    linarith
  have h1m : ∀ q ∈ s.player_move_cards.set s.current_player_id.toNat
      (s.player_move_cards.getD s.current_player_id.toNat 0 -
        ((max (turn_total_dist s t - 1) 0 : Int) : ℚ)), 0 ≤ q :=
    nonneg_set hm hsub _
  have hloot : (0:ℚ) ≤ JUST_OVER_ONE_THIRD := by norm_num [JUST_OVER_ONE_THIRD]
  have h2m : ∀ q ∈ (s.player_move_cards.set s.current_player_id.toNat
      (s.player_move_cards.getD s.current_player_id.toNat 0 -
        ((max (turn_total_dist s t - 1) 0 : Int) : ℚ))).set
        s.current_player_id.toNat
      ((s.player_move_cards.set s.current_player_id.toNat
      (s.player_move_cards.getD s.current_player_id.toNat 0 -
        ((max (turn_total_dist s t - 1) 0 : Int) : ℚ))).getD
        s.current_player_id.toNat 0 + MOVE_CARDS_PER_LOOT), 0 ≤ q :=
    nonneg_set h1m (add_nonneg (nonneg_getD h1m _) hloot) _
  have h2w : ∀ q ∈ s.player_weapons.set s.current_player_id.toNat
      (s.player_weapons.getD s.current_player_id.toNat 0 + WEAPONS_PER_LOOT),
      0 ≤ q :=
    nonneg_set hw (add_nonneg (nonneg_getD hw _) hloot) _
  have h2f : ∀ q ∈ s.player_failures.set s.current_player_id.toNat
      (s.player_failures.getD s.current_player_id.toNat 0 + FAILURES_PER_LOOT),
      0 ≤ q :=
    nonneg_set hf (add_nonneg (nonneg_getD hf _) hloot) _
  unfold after_normal_turn
  dsimp only
  repeat' split
  all_goals first
    | exact ⟨h1m, hw, hf⟩
    | exact ⟨h2m, h2w, h2f⟩
    | exact nonneg_process_attack ⟨h1m, hw, hf⟩
    | exact nonneg_do_doctor_phase ⟨h1m, hw, hf⟩
    | exact nonneg_do_doctor_phase ⟨h2m, h2w, h2f⟩
    | exact nonneg_do_doctor_phase (nonneg_process_attack ⟨h1m, hw, hf⟩)
    | exact nonneg_after_stranger_turn fuel ⟨h1m, hw, hf⟩
    | exact nonneg_after_stranger_turn fuel ⟨h2m, h2w, h2f⟩
    | exact nonneg_after_stranger_turn fuel (nonneg_process_attack ⟨h1m, hw, hf⟩)
    | exact nonneg_after_stranger_turn fuel (nonneg_do_doctor_phase ⟨h1m, hw, hf⟩)
    | exact nonneg_after_stranger_turn fuel (nonneg_do_doctor_phase ⟨h2m, h2w, h2f⟩)
    | exact nonneg_after_stranger_turn fuel
        (nonneg_do_doctor_phase (nonneg_process_attack ⟨h1m, hw, hf⟩))

/-- C10: non-negativity of every player's move-card, weapon, and failure
counts is an invariant of the game: it holds at the start state and is
preserved by every turn that passes `check_normal_turn`, including the forced
stranger sub-turns and combat the turn triggers. -/
theorem c10_nonneg_invariant (common : CommonGameState) (s : MutableGameState)
    (h : Reachable common s) : nonneg_cards s := by
  induction h with
  | start =>
    refine ⟨?_, ?_, ?_⟩
    all_goals intro q hq
    all_goals rw [MutableGameState.at_start] at hq
    all_goals dsimp only at hq
    all_goals rw [List.eq_of_mem_replicate hq]
    · norm_num [PLAYER_STARTING_MOVE_CARDS]
    · norm_num [PLAYER_STARTING_WEAPONS]
    · norm_num [PLAYER_STARTING_FAILURES]
  | step s t fuel _ hchk ih =>
    exact nonneg_after_normal_turn fuel hchk ih

/-- C10 witness: the invariant evaluated down a concrete two-step reachable
state on the six-room cycle board. -/
theorem c10_witness :
    nonneg_cards (after_normal_turn 8
      (MutableGameState.at_start common2p) (SimpleTurn.single 0 2)) :=
  c10_nonneg_invariant common2p _
    (Reachable.step _ (SimpleTurn.single 0 2) 8 Reachable.start rfl)

theorem key_process_attack {a b : MutableGameState}
    (h : mgs_key a = mgs_key b) :
    (process_attack a).1 = (process_attack b).1 ∧
      mgs_key (process_attack a).2 = mgs_key (process_attack b).2 := by
  obtain ⟨ac, atid, acur, adoc, ar, am, aw, af, as_, ah, awin, ap⟩ := a
  obtain ⟨bc, btid, bcur, bdoc, br, bm, bw, bf, bs, bh, bwin, bp⟩ := b
  simp only [mgs_key, Prod.mk.injEq] at h
  obtain ⟨h1, h2, h3, h4, h5, h6, h7, h8, h9, h10⟩ := h
  subst h1; subst h2; subst h3; subst h4; subst h5
  subst h6; subst h7; subst h8; subst h9; subst h10
  unfold process_attack MutableGameState.is_normal_turn num_defensive_clovers
  dsimp only
  repeat' split
  all_goals exact ⟨rfl, rfl⟩

theorem key_do_doctor_phase {a b : MutableGameState}
    (h : mgs_key a = mgs_key b) :
    mgs_key (do_doctor_phase a) = mgs_key (do_doctor_phase b) := by
  obtain ⟨ac, atid, acur, adoc, ar, am, aw, af, as_, ah, awin, ap⟩ := a
  obtain ⟨bc, btid, bcur, bdoc, br, bm, bw, bf, bs, bh, bwin, bp⟩ := b
  simp only [mgs_key, Prod.mk.injEq] at h
  obtain ⟨h1, h2, h3, h4, h5, h6, h7, h8, h9, h10⟩ := h
  subst h1; subst h2; subst h3; subst h4; subst h5
  subst h6; subst h7; subst h8; subst h9; subst h10
  unfold do_doctor_phase
  dsimp only
  repeat' split
  all_goals first | rfl | simp_all

theorem key_has_winner {a b : MutableGameState} (h : mgs_key a = mgs_key b) :
    a.has_winner = b.has_winner := by
  obtain ⟨ac, atid, acur, adoc, ar, am, aw, af, as_, ah, awin, ap⟩ := a
  obtain ⟨bc, btid, bcur, bdoc, br, bm, bw, bf, bs, bh, bwin, bp⟩ := b
  simp only [mgs_key, Prod.mk.injEq] at h
  obtain ⟨h1, h2, h3, h4, h5, h6, h7, h8, h9, h10⟩ := h
  subst h1; subst h10
  rfl

theorem key_is_normal_turn {a b : MutableGameState}
    (h : mgs_key a = mgs_key b) : a.is_normal_turn = b.is_normal_turn := by
  obtain ⟨ac, atid, acur, adoc, ar, am, aw, af, as_, ah, awin, ap⟩ := a
  obtain ⟨bc, btid, bcur, bdoc, br, bm, bw, bf, bs, bh, bwin, bp⟩ := b
  simp only [mgs_key, Prod.mk.injEq] at h
  obtain ⟨h1, h2, h3, h4, h5, h6, h7, h8, h9, h10⟩ := h
  subst h1; subst h3
  rfl

theorem baa_hist (c : CommonGameState) (tid cur : Int) (doc : Nat)
    (rooms : List Nat) (mc wc fc : List ℚ) (st : List Int) (h : List Int)
    (win : Int) (p : SimpleTurn) (m : Bool) :
    best_action_allowed
      (MutableGameState.mk c tid cur doc rooms mc wc fc st h win p) m =
    best_action_allowed
      (MutableGameState.mk c tid cur doc rooms mc wc fc st [] win
        SimpleTurn.invalid_default) m := rfl

theorem hw_hist (c : CommonGameState) (tid cur : Int) (doc : Nat)
    (rooms : List Nat) (mc wc fc : List ℚ) (st : List Int) (h : List Int)
    (win : Int) (p : SimpleTurn) :
    (MutableGameState.mk c tid cur doc rooms mc wc fc st h win p).has_winner =
    (MutableGameState.mk c tid cur doc rooms mc wc fc st [] win
      SimpleTurn.invalid_default).has_winner := rfl

theorem int_hist (c : CommonGameState) (tid cur : Int) (doc : Nat)
    (rooms : List Nat) (mc wc fc : List ℚ) (st : List Int) (h : List Int)
    (win : Int) (p : SimpleTurn) :
    (MutableGameState.mk c tid cur doc rooms mc wc fc st h win
      p).is_normal_turn =
    (MutableGameState.mk c tid cur doc rooms mc wc fc st [] win
      SimpleTurn.invalid_default).is_normal_turn := rfl

theorem roomof_hist (c : CommonGameState) (tid cur : Int) (doc : Nat)
    (rooms : List Nat) (mc wc fc : List ℚ) (st : List Int) (h : List Int)
    (win : Int) (p : SimpleTurn) (pid : Int) :
    (MutableGameState.mk c tid cur doc rooms mc wc fc st h win p).room_of pid =
    (MutableGameState.mk c tid cur doc rooms mc wc fc st [] win
      SimpleTurn.invalid_default).room_of pid := rfl

theorem ttd_hist (c : CommonGameState) (tid cur : Int) (doc : Nat)
    (rooms : List Nat) (mc wc fc : List ℚ) (st : List Int) (h : List Int)
    (win : Int) (p : SimpleTurn) (t : SimpleTurn) :
    turn_total_dist
      (MutableGameState.mk c tid cur doc rooms mc wc fc st h win p) t =
    turn_total_dist
      (MutableGameState.mk c tid cur doc rooms mc wc fc st [] win
        SimpleTurn.invalid_default) t := rfl

theorem pa_hist (c : CommonGameState) (tid cur : Int) (doc : Nat)
    (rooms : List Nat) (mc wc fc : List ℚ) (st : List Int) (h : List Int)
    (win : Int) (p : SimpleTurn) :
    process_attack
      (MutableGameState.mk c tid cur doc rooms mc wc fc st h win p) =
    ((process_attack (MutableGameState.mk c tid cur doc rooms mc wc fc st []
        win SimpleTurn.invalid_default)).1,
      { (process_attack (MutableGameState.mk c tid cur doc rooms mc wc fc st []
          win SimpleTurn.invalid_default)).2 with
        attacker_hist := h ++ [cur], prev_turn := p }) := by
  unfold process_attack MutableGameState.is_normal_turn num_defensive_clovers
  dsimp only
  repeat' split
  all_goals rfl

theorem ddp_hist (c : CommonGameState) (tid cur : Int) (doc : Nat)
    (rooms : List Nat) (mc wc fc : List ℚ) (st : List Int) (h : List Int)
    (win : Int) (p : SimpleTurn) :
    do_doctor_phase
      (MutableGameState.mk c tid cur doc rooms mc wc fc st h win p) =
    { do_doctor_phase (MutableGameState.mk c tid cur doc rooms mc wc fc st []
        win SimpleTurn.invalid_default) with
      attacker_hist := h, prev_turn := p } := by
  unfold do_doctor_phase
  dsimp only
  repeat' split
  all_goals first | rfl | simp_all

theorem after_normal_turn_eq (fuel : Nat) (s : MutableGameState)
    (turn : SimpleTurn) :
    after_normal_turn fuel s turn =
      if (normal_step s turn).has_winner = false ∧
          (normal_step s turn).is_normal_turn = false then
        after_stranger_turn fuel (normal_step s turn)
      else normal_step s turn := rfl
theorem stranger_step_eq (s : MutableGameState) :
    stranger_step s =
      phase_tail
        (if (if best_action_allowed s false ≠ PlayerAction.Attack then
            best_action_allowed (stranger_move s) false
          else best_action_allowed s false) = PlayerAction.Attack then
          attack_resolve_stranger (stranger_move s)
        else stranger_move s) := rfl

theorem normal_step_eq (s : MutableGameState) (turn : SimpleTurn) :
    normal_step s turn =
      phase_tail
        (if best_action_allowed (normal_move s turn).1 (normal_move s turn).2 =
            PlayerAction.Attack then
          attack_resolve_normal (normal_move s turn).1
        else if best_action_allowed (normal_move s turn).1
            (normal_move s turn).2 = PlayerAction.Loot then
          loot_resolve (normal_move s turn).1 s.current_player_id.toNat
        else (normal_move s turn).1) := rfl

theorem key_current {a b : MutableGameState} (h : mgs_key a = mgs_key b) :
    a.current_player_id = b.current_player_id := by
  obtain ⟨ac, atid, acur, adoc, ar, am, aw, af, as_, ah, awin, ap⟩ := a
  obtain ⟨bc, btid, bcur, bdoc, br, bm, bw, bf, bs, bh, bwin, bp⟩ := b
  simp only [mgs_key, Prod.mk.injEq] at h
  exact h.2.2.1

theorem key_baa {a b : MutableGameState} (h : mgs_key a = mgs_key b)
    (m : Bool) : best_action_allowed a m = best_action_allowed b m := by
  obtain ⟨ac, atid, acur, adoc, ar, am, aw, af, as_, ah, awin, ap⟩ := a
  obtain ⟨bc, btid, bcur, bdoc, br, bm, bw, bf, bs, bh, bwin, bp⟩ := b
  simp only [mgs_key, Prod.mk.injEq] at h
  obtain ⟨h1, h2, h3, h4, h5, h6, h7, h8, h9, h10⟩ := h
  subst h1; subst h2; subst h3; subst h4; subst h5
  subst h6; subst h7; subst h8; subst h9; subst h10
  rfl

theorem key_stranger_move {a b : MutableGameState}
    (h : mgs_key a = mgs_key b) :
    mgs_key (stranger_move a) = mgs_key (stranger_move b) := by
  obtain ⟨ac, atid, acur, adoc, ar, am, aw, af, as_, ah, awin, ap⟩ := a
  obtain ⟨bc, btid, bcur, bdoc, br, bm, bw, bf, bs, bh, bwin, bp⟩ := b
  simp only [mgs_key, Prod.mk.injEq] at h
  obtain ⟨h1, h2, h3, h4, h5, h6, h7, h8, h9, h10⟩ := h
  subst h1; subst h2; subst h3; subst h4; subst h5
  subst h6; subst h7; subst h8; subst h9; subst h10
  rfl

theorem key_attack_resolve_stranger {a b : MutableGameState}
    (h : mgs_key a = mgs_key b) :
    mgs_key (attack_resolve_stranger a) =
      mgs_key (attack_resolve_stranger b) := by
  obtain ⟨ac, atid, acur, adoc, ar, am, aw, af, as_, ah, awin, ap⟩ := a
  obtain ⟨bc, btid, bcur, bdoc, br, bm, bw, bf, bs, bh, bwin, bp⟩ := b
  simp only [mgs_key, Prod.mk.injEq] at h
  obtain ⟨h1, h2, h3, h4, h5, h6, h7, h8, h9, h10⟩ := h
  subst h1; subst h2; subst h3; subst h4; subst h5
  subst h6; subst h7; subst h8; subst h9; subst h10
  unfold attack_resolve_stranger process_attack
    MutableGameState.is_normal_turn num_defensive_clovers
  dsimp only
  repeat' split
  all_goals rfl

theorem key_attack_resolve_normal {a b : MutableGameState}
    (h : mgs_key a = mgs_key b) :
    mgs_key (attack_resolve_normal a) = mgs_key (attack_resolve_normal b) := by
  obtain ⟨ac, atid, acur, adoc, ar, am, aw, af, as_, ah, awin, ap⟩ := a
  obtain ⟨bc, btid, bcur, bdoc, br, bm, bw, bf, bs, bh, bwin, bp⟩ := b
  simp only [mgs_key, Prod.mk.injEq] at h
  obtain ⟨h1, h2, h3, h4, h5, h6, h7, h8, h9, h10⟩ := h
  subst h1; subst h2; subst h3; subst h4; subst h5
  subst h6; subst h7; subst h8; subst h9; subst h10
  unfold attack_resolve_normal process_attack
    MutableGameState.is_normal_turn num_defensive_clovers
  dsimp only
  repeat' split
  all_goals rfl

theorem key_normal_move {a b : MutableGameState} (t : SimpleTurn)
    (h : mgs_key a = mgs_key b) :
    mgs_key (normal_move a t).1 = mgs_key (normal_move b t).1 ∧
      (normal_move a t).2 = (normal_move b t).2 := by
  obtain ⟨ac, atid, acur, adoc, ar, am, aw, af, as_, ah, awin, ap⟩ := a
  obtain ⟨bc, btid, bcur, bdoc, br, bm, bw, bf, bs, bh, bwin, bp⟩ := b
  simp only [mgs_key, Prod.mk.injEq] at h
  obtain ⟨h1, h2, h3, h4, h5, h6, h7, h8, h9, h10⟩ := h
  subst h1; subst h2; subst h3; subst h4; subst h5
  subst h6; subst h7; subst h8; subst h9; subst h10
  exact ⟨rfl, rfl⟩

theorem key_loot {a b : MutableGameState} (i : Nat)
    (h : mgs_key a = mgs_key b) :
    mgs_key (loot_resolve a i) = mgs_key (loot_resolve b i) := by
  obtain ⟨ac, atid, acur, adoc, ar, am, aw, af, as_, ah, awin, ap⟩ := a
  obtain ⟨bc, btid, bcur, bdoc, br, bm, bw, bf, bs, bh, bwin, bp⟩ := b
  simp only [mgs_key, Prod.mk.injEq] at h
  obtain ⟨h1, h2, h3, h4, h5, h6, h7, h8, h9, h10⟩ := h
  subst h1; subst h2; subst h3; subst h4; subst h5
  subst h6; subst h7; subst h8; subst h9; subst h10
  rfl

theorem key_tick {x y : MutableGameState} (h : mgs_key x = mgs_key y) :
    mgs_key { x with turn_id := x.turn_id + 1 } =
      mgs_key { y with turn_id := y.turn_id + 1 } := by
  simp only [mgs_key, Prod.mk.injEq] at h ⊢
  obtain ⟨h1, h2, h3, h4, h5, h6, h7, h8, h9, h10⟩ := h
  exact ⟨h1, by rw [h2], h3, h4, h5, h6, h7, h8, h9, h10⟩

theorem key_tail {x y : MutableGameState} (h : mgs_key x = mgs_key y) :
    mgs_key (phase_tail x) = mgs_key (phase_tail y) := by
  unfold phase_tail
  dsimp only
  rw [key_has_winner h]
  split
  · exact key_tick h
  · exact key_tick (key_do_doctor_phase h)

theorem key_ite {C : Prop} [Decidable C] {x1 x2 y1 y2 : MutableGameState}
    (h1 : mgs_key x1 = mgs_key y1) (h2 : mgs_key x2 = mgs_key y2) :
    mgs_key (if C then x1 else x2) = mgs_key (if C then y1 else y2) := by
  split
  · exact h1
  · exact h2

theorem key_stranger_step {a b : MutableGameState}
    (h : mgs_key a = mgs_key b) :
    mgs_key (stranger_step a) = mgs_key (stranger_step b) := by
  rw [stranger_step_eq, stranger_step_eq]
  have h1 := key_stranger_move h
  rw [key_baa h false, key_baa h1 false]
  exact key_tail (key_ite (key_attack_resolve_stranger h1) h1)

theorem key_normal_step {a b : MutableGameState} (t : SimpleTurn)
    (h : mgs_key a = mgs_key b) :
    mgs_key (normal_step a t) = mgs_key (normal_step b t) := by
  rw [normal_step_eq, normal_step_eq]
  obtain ⟨hm1, hm2⟩ := key_normal_move t h
  rw [hm2, key_baa hm1, key_current h]
  exact key_tail
    (key_ite (key_attack_resolve_normal hm1) (key_ite (key_loot _ hm1) hm1))

theorem key_after_stranger_turn (fuel : Nat) {a b : MutableGameState}
    (h : mgs_key a = mgs_key b) :
    mgs_key (after_stranger_turn fuel a) =
      mgs_key (after_stranger_turn fuel b) := by
  induction fuel generalizing a b with
  | zero => exact h
  | succ fuel ih =>
    rw [after_stranger_turn_succ, after_stranger_turn_succ]
    have hs := key_stranger_step h
    rw [key_has_winner hs, key_is_normal_turn hs]
    split
    · exact ih hs
    · exact hs

theorem key_after_normal_turn (fuel : Nat) {a b : MutableGameState}
    (t : SimpleTurn) (h : mgs_key a = mgs_key b) :
    mgs_key (after_normal_turn fuel a t) =
      mgs_key (after_normal_turn fuel b t) := by
  rw [after_normal_turn_eq, after_normal_turn_eq]
  have hs := key_normal_step t h
  rw [key_has_winner hs, key_is_normal_turn hs]
  split
  · exact key_after_stranger_turn fuel hs
  · exact hs

theorem key_to_mgs_eq {x y : MutableGameState} (h : mgs_key x = mgs_key y) :
    mgs_eq x y := by
  unfold mgs_key at h
  simp only [Prod.mk.injEq] at h
  obtain ⟨h1, h2, h3, h4, h5, h6, h7, h8, h9, h10⟩ := h
  exact ⟨by rw [h1], by rw [h1], by rw [h1], h3, h4, h5, h6, h7, h8, h9, h10⟩

/-- C8 (amended): `after_normal_turn` is deterministic with respect to the
state's own equality relation once that relation is strengthened to also
match `turn_id` and the full board: two states that are equal under
`PartialEq` (`mgs_eq`), have the same `turn_id` and carry identical boards
(they may still differ in the uncompared `attacker_hist` and `prev_turn`)
give `PartialEq`-equal results for every legal turn. -/
theorem c8_apply_turn_deterministic (a b : MutableGameState) (t : SimpleTurn)
    (fuel : Nat) (heq : mgs_eq a b) (htid : a.turn_id = b.turn_id)
    (hboard : a.common.board = b.common.board)
    (hchk : check_normal_turn a t = Except.ok ()) :
    mgs_eq (after_normal_turn fuel a t) (after_normal_turn fuel b t) := by
  obtain ⟨hn, hnp, hna, h4, h5, h6, h7, h8, h9, h10, h11⟩ := heq
  have hc : a.common = b.common := by
    calc a.common
        = ⟨a.common.board, a.common.num_normal_players,
            a.common.num_all_players⟩ := rfl
      _ = ⟨b.common.board, b.common.num_normal_players,
            b.common.num_all_players⟩ := by rw [hboard, hnp, hna]
      _ = b.common := rfl
  have hkey : mgs_key a = mgs_key b := by
    unfold mgs_key
    rw [hc, htid, h4, h5, h6, h7, h8, h9, h10, h11]
  exact key_to_mgs_eq (key_after_normal_turn fuel t hkey)

/-- C8 witness: the amended determinism applied to two concrete states that
agree on everything `PartialEq` compares and on `turn_id` and the board. -/
theorem c8_witness :
    mgs_eq (after_normal_turn 4 c8_state_a (SimpleTurn.single 0 2))
      (after_normal_turn 4
        { c8_state_a with
          attacker_hist := [0]
          prev_turn := SimpleTurn.single 0 3 }
        (SimpleTurn.single 0 2)) :=
  c8_apply_turn_deterministic c8_state_a
    { c8_state_a with
      attacker_hist := [0]
      prev_turn := SimpleTurn.single 0 3 }
    (SimpleTurn.single 0 2) 4 (by decide) rfl rfl rfl

/-- C8 counterexample to the claim as written: two states that are equal
under the state's own `PartialEq` (which ignores `turn_id`), to which the
same legal turn is applied, yield results that are NOT equal under
`PartialEq`: the doctor-phase activation scan runs only when
`turn_id >= num_all_players`, so the later-round copy activates a different
player. -/
theorem c8_counterexample_partialeq_not_deterministic :
    mgs_eq c8_state_a c8_state_b ∧
    check_normal_turn c8_state_a (SimpleTurn.single 0 2) = Except.ok () ∧
    check_normal_turn c8_state_b (SimpleTurn.single 0 2) = Except.ok () ∧
    ¬ mgs_eq (after_normal_turn 4 c8_state_a (SimpleTurn.single 0 2))
      (after_normal_turn 4 c8_state_b (SimpleTurn.single 0 2)) :=
  ⟨by decide, rfl, rfl, by decide⟩

theorem matrix_fuel_eq (m : List (List Int)) : matrix_fuel m = msum m + 1 := rfl

theorem getD_set_ne' {α : Type} (l : List α) {i j : Nat} (v d : α)
    (h : j ≠ i) : (l.set i v).getD j d = l.getD j d := by
  rw [List.getD_eq_getElem?_getD, List.getD_eq_getElem?_getD,
    List.getElem?_set_ne (fun hh => h hh.symm)]

theorem getD_set_self' {α : Type} (l : List α) {i : Nat} (v d : α)
    (h : i < l.length) : (l.set i v).getD i d = v := by
  rw [List.getD_eq_getElem?_getD, List.getElem?_set_self (by simpa using h)]
  rfl

theorem dget_pos_bounds {m : List (List Int)} {r c : Nat}
    (h : 0 < dget m r c) : r < m.length ∧ c < (m.getD r []).length := by
  constructor
  · by_contra hr
    rw [dget, List.getD_eq_getElem?_getD (l := m),
      List.getElem?_eq_none (by omega)] at h
    simp at h
  · by_contra hc
    rw [dget, List.getD_eq_getElem?_getD (l := m.getD r []),
      List.getElem?_eq_none (by omega)] at h
    simp at h

theorem dget_dset_ne {m : List (List Int)} {r c r' c' : Nat} (v : Int)
    (h : r' ≠ r ∨ c' ≠ c) :
    dget (dset m r c v) r' c' = dget m r' c' := by
  unfold dget dset
  rcases h with h | h
  · rw [getD_set_ne' _ _ _ h]
  · by_cases hr : r' = r
    · subst hr
      by_cases hlen : r' < m.length
      · rw [getD_set_self' _ _ _ hlen, getD_set_ne' _ _ _ h]
      · have h1 : (m.set r' ((m.getD r' []).set c v)).getD r' ([] : List Int)
            = [] := by
          rw [List.getD_eq_getElem?_getD, List.getElem?_eq_none]
          · rfl
          · rw [List.length_set]; omega
        have h2 : m.getD r' ([] : List Int) = [] := by
          rw [List.getD_eq_getElem?_getD, List.getElem?_eq_none (by omega)]
          rfl
        rw [h1, h2]
    · rw [getD_set_ne' _ _ _ hr]

theorem dget_dset_self {m : List (List Int)} {r c : Nat} (v : Int)
    (hr : r < m.length) (hc : c < (m.getD r []).length) :
    dget (dset m r c v) r c = v := by
  unfold dget dset
  rw [getD_set_self' _ _ _ hr, getD_set_self' _ _ _ hc]

theorem sum_map_set_lt {α : Type} (f : α → Nat) {l : List α} {i : Nat} {v : α}
    (hi : i < l.length) (hlt : f v < f (l.get ⟨i, hi⟩)) :
    ((l.set i v).map f).sum < (l.map f).sum := by
  induction l generalizing i with
  | nil => simp at hi
  | cons x xs ih =>
    cases i with
    | zero =>
      simp only [List.set, List.map, List.sum_cons]
      have : f v < f x := hlt
      omega
    | succ i =>
      simp only [List.set, List.map, List.sum_cons]
      have := ih (i := i) (by simpa using hi) (by simpa using hlt)
      omega

theorem has_walk_append {adjacency : List (List Bool)} :
    ∀ {n1 n2 a b c : Nat}, has_walk adjacency n1 a b = true →
      has_walk adjacency n2 b c = true →
      has_walk adjacency (n1 + n2) a c = true := by
  intro n1
  induction n1 with
  | zero =>
    intro n2 a b c h1 h2
    rw [has_walk] at h1
    simp at h1
    subst h1
    simpa using h2
  | succ n ih =>
    intro n2 a b c h1 h2
    rw [has_walk] at h1
    simp only [List.any_eq_true, Bool.and_eq_true] at h1
    obtain ⟨b', hb', he, hw⟩ := h1
    have := ih hw h2
    have hgoal : n + 1 + n2 = n + n2 + 1 := by omega
    rw [hgoal, has_walk]
    simp only [List.any_eq_true, Bool.and_eq_true]
    exact ⟨b', hb', he, this⟩

theorem relaxInv_initial (adjacency : List (List Bool)) :
    RelaxInv adjacency (initial_distance adjacency) := by
  intro r c hr hc
  have hrow : (initial_distance adjacency).getD r [] =
      List.map (fun c => if r = c then 0
        else if (adjacency.getD r []).getD c false then 1 else 999)
        (List.range adjacency.length) := by
    unfold initial_distance
    dsimp only
    rw [List.getD_eq_getElem _ _ (by simpa using hr), List.getElem_map,
      List.getElem_range]
  have hval : dget (initial_distance adjacency) r c =
      if r = c then 0
      else if (adjacency.getD r []).getD c false then 1 else 999 := by
    rw [dget, hrow, List.getD_eq_getElem _ _ (by simpa using hc),
      List.getElem_map, List.getElem_range]
  rw [hval]
  by_cases heq : r = c
  · subst heq
    rw [if_pos rfl]
    exact ⟨le_refl 0, by norm_num, fun _ => rfl, fun _ => by norm_num,
      fun _ => ⟨0, by simp, by rw [has_walk]; simp⟩⟩
  · rw [if_neg heq]
    by_cases hedge : (adjacency.getD r []).getD c false
    · rw [if_pos hedge]
      refine ⟨by omega, by omega, fun hh => absurd hh heq, fun _ => le_refl 1,
        fun _ => ⟨1, by simp, ?_⟩⟩
      rw [has_walk]
      simp only [List.any_eq_true, Bool.and_eq_true]
      exact ⟨c, by simpa using hc, hedge, by rw [has_walk]; simp⟩
    · rw [if_neg hedge]
      refine ⟨by omega, le_refl _, fun hh => absurd hh heq,
        fun hh => absurd hh (by simpa [has_edge] using hedge), fun hh => by omega⟩

theorem mem_relax_triples {dim : Nat} {t : Nat × Nat × Nat}
    (h : t ∈ relax_triples dim) :
    1 ≤ t.1 ∧ t.1 < dim ∧ 1 ≤ t.2.1 ∧ t.2.1 < dim ∧ 1 ≤ t.2.2 ∧
      t.2.2 < dim ∧ t.1 ≠ t.2.1 := by
  unfold relax_triples at h
  simp only [List.mem_flatMap, List.mem_range'_1] at h
  obtain ⟨s, hs, d, hd, ht⟩ := h
  by_cases heq : s = d
  · rw [if_pos heq] at ht
    simp at ht
  · rw [if_neg heq] at ht
    simp only [List.mem_map, List.mem_range'_1] at ht
    obtain ⟨i, hi, rfl⟩ := ht
    dsimp only
    refine ⟨by omega, by omega, by omega, by omega, by omega, by omega, ?_⟩
    exact heq

theorem relax_triples_mem {dim s d i : Nat} (hs1 : 1 ≤ s) (hs2 : s < dim)
    (hd1 : 1 ≤ d) (hd2 : d < dim) (hi1 : 1 ≤ i) (hi2 : i < dim)
    (hne : s ≠ d) : (s, d, i) ∈ relax_triples dim := by
  unfold relax_triples
  simp only [List.mem_flatMap, List.mem_map, List.mem_range'_1]
  refine ⟨s, ⟨by omega, by omega⟩, d, ⟨by omega, by omega⟩, ?_⟩
  rw [if_neg hne]
  simp only [List.mem_map, List.mem_range'_1]
  exact ⟨i, ⟨by omega, by omega⟩, rfl⟩

theorem relaxInv_relax_triple {adjacency : List (List Bool)}
    {m : List (List Int)} {t : Nat × Nat × Nat}
    (hm : RelaxInv adjacency m) (hs : t.1 < adjacency.length)
    (hd : t.2.1 < adjacency.length) (hi : t.2.2 < adjacency.length)
    (hne : t.1 ≠ t.2.1) :
    RelaxInv adjacency (relax_triple m t) := by
  obtain ⟨s, d, i⟩ := t
  dsimp only at hs hd hi hne
  unfold relax_triple
  dsimp only
  by_cases hc : dget m s i + dget m i d < dget m s d
  · rw [if_pos hc]
    intro r c hr hc'
    by_cases hpos : r = s ∧ c = d
    · obtain ⟨rfl, rfl⟩ := hpos
      have hsi := hm r i hr hi
      have hid := hm i c hi hc'
      have hsd := hm r c hr hc'
      have hbnd : 0 < dget m r c := by omega
      obtain ⟨hrlen, hclen⟩ := dget_pos_bounds hbnd
      rw [dget_dset_self _ hrlen hclen]
      refine ⟨by omega, by omega, fun hh => absurd hh hne, fun hh => ?_, ?_⟩
      · have := hsd.2.2.2.1 hh
        omega
      · intro _
        have h1 : dget m r i < 999 := by omega
        have h2 : dget m i c < 999 := by omega
        obtain ⟨n1, hn1, hw1⟩ := hsi.2.2.2.2 h1
        obtain ⟨n2, hn2, hw2⟩ := hid.2.2.2.2 h2
        exact ⟨n1 + n2, by push_cast; omega, has_walk_append hw1 hw2⟩
    · have hneq : r ≠ s ∨ c ≠ d := by tauto
      rw [dget_dset_ne _ hneq]
      exact hm r c hr hc'
  · rw [if_neg hc]
    exact hm

theorem relax_triple_dichotomy {m : List (List Int)} {t : Nat × Nat × Nat}
    (hnn : 0 ≤ dget m t.1 t.2.2 ∧ 0 ≤ dget m t.2.2 t.2.1) :
    relax_triple m t = m ∨ msum (relax_triple m t) < msum m := by
  obtain ⟨s, d, i⟩ := t
  dsimp only at hnn
  unfold relax_triple
  dsimp only
  by_cases hc : dget m s i + dget m i d < dget m s d
  · right
    rw [if_pos hc]
    have hbnd : 0 < dget m s d := by omega
    obtain ⟨hrlen, hclen⟩ := dget_pos_bounds hbnd
    unfold msum dset
    have hrow : m.getD s ([] : List Int) = m.get ⟨s, hrlen⟩ := by
      rw [List.getD_eq_getElem _ _ hrlen]
      rfl
    have hentry : (m.getD s ([] : List Int)).get ⟨d, hclen⟩ = dget m s d := by
      rw [dget, List.getD_eq_getElem _ _ hclen]
      rfl
    apply sum_map_set_lt _ hrlen
    rw [← hrow]
    apply sum_map_set_lt _ hclen
    rw [hentry]
    omega
  · left
    rw [if_neg hc]

theorem relaxInv_foldl {adjacency : List (List Bool)} :
    ∀ {ts : List (Nat × Nat × Nat)} {m : List (List Int)},
      RelaxInv adjacency m →
      (∀ t ∈ ts, t.1 < adjacency.length ∧ t.2.1 < adjacency.length ∧
        t.2.2 < adjacency.length ∧ t.1 ≠ t.2.1) →
      RelaxInv adjacency (ts.foldl relax_triple m) ∧
        msum (ts.foldl relax_triple m) ≤ msum m := by
  intro ts
  induction ts with
  | nil => exact fun hm _ => ⟨hm, le_refl _⟩
  | cons t rest ih =>
    intro m hm hts
    obtain ⟨h1, h2, h3, h4⟩ := hts t (List.mem_cons_self t rest)
    have hstep := relaxInv_relax_triple hm h1 h2 h3 h4
    have hrest := fun t' ht' => hts t' (List.mem_cons_of_mem t ht')
    obtain ⟨hInv, hle⟩ := ih hstep hrest
    refine ⟨hInv, le_trans hle ?_⟩
    rcases relax_triple_dichotomy (m := m) (t := t)
        ⟨(hm t.1 t.2.2 h1 h3).1, (hm t.2.2 t.2.1 h3 h2).1⟩ with he | hlt
    · rw [he]
    · exact le_of_lt hlt

theorem foldl_ne_imp_lt {adjacency : List (List Bool)} :
    ∀ {ts : List (Nat × Nat × Nat)} {m : List (List Int)},
      RelaxInv adjacency m →
      (∀ t ∈ ts, t.1 < adjacency.length ∧ t.2.1 < adjacency.length ∧
        t.2.2 < adjacency.length ∧ t.1 ≠ t.2.1) →
      ts.foldl relax_triple m ≠ m → msum (ts.foldl relax_triple m) < msum m := by
  intro ts
  induction ts with
  | nil => exact fun _ _ hne => absurd rfl hne
  | cons t rest ih =>
    intro m hm hts hne
    obtain ⟨h1, h2, h3, h4⟩ := hts t (List.mem_cons_self t rest)
    have hrest := fun t' ht' => hts t' (List.mem_cons_of_mem t ht')
    have hstep := relaxInv_relax_triple hm h1 h2 h3 h4
    rcases relax_triple_dichotomy (m := m) (t := t)
        ⟨(hm t.1 t.2.2 h1 h3).1, (hm t.2.2 t.2.1 h3 h2).1⟩ with he | hlt
    · rw [List.foldl_cons, he] at hne ⊢
      exact ih hm hrest hne
    · rw [List.foldl_cons]
      exact lt_of_le_of_lt (relaxInv_foldl hstep hrest).2 hlt

theorem foldl_fix {adjacency : List (List Bool)} :
    ∀ {ts : List (Nat × Nat × Nat)} {m : List (List Int)},
      RelaxInv adjacency m →
      (∀ t ∈ ts, t.1 < adjacency.length ∧ t.2.1 < adjacency.length ∧
        t.2.2 < adjacency.length ∧ t.1 ≠ t.2.1) →
      ts.foldl relax_triple m = m → ∀ t ∈ ts, relax_triple m t = m := by
  intro ts
  induction ts with
  | nil => intro m _ _ _ t ht; simp at ht
  | cons t rest ih =>
    intro m hm hts hfix t' ht'
    obtain ⟨h1, h2, h3, h4⟩ := hts t (List.mem_cons_self t rest)
    have hrest := fun u hu => hts u (List.mem_cons_of_mem t hu)
    have hstep := relaxInv_relax_triple hm h1 h2 h3 h4
    rw [List.foldl_cons] at hfix
    rcases relax_triple_dichotomy (m := m) (t := t)
        ⟨(hm t.1 t.2.2 h1 h3).1, (hm t.2.2 t.2.1 h3 h2).1⟩ with he | hlt
    · rcases List.mem_cons.1 ht' with rfl | hmem
      · exact he
      · rw [he] at hfix
        exact ih hm hrest hfix t' hmem
    · exfalso
      have hle := (relaxInv_foldl hstep hrest).2
      rw [hfix] at hle
      omega

theorem relax_triples_bounds {dim : Nat} :
    ∀ t ∈ relax_triples dim, t.1 < dim ∧ t.2.1 < dim ∧ t.2.2 < dim ∧
      t.1 ≠ t.2.1 := by
  intro t ht
  have := mem_relax_triples ht
  exact ⟨this.2.1, this.2.2.2.1, this.2.2.2.2.2.1, this.2.2.2.2.2.2⟩

theorem relaxInv_relax_pass {adjacency : List (List Bool)}
    {m : List (List Int)} (hm : RelaxInv adjacency m) :
    RelaxInv adjacency (relax_pass adjacency.length m) ∧
      msum (relax_pass adjacency.length m) ≤ msum m :=
  relaxInv_foldl hm (relax_triples_bounds)

theorem relax_loop_inv {adjacency : List (List Bool)} :
    ∀ (fuel : Nat) {m : List (List Int)}, RelaxInv adjacency m →
      RelaxInv adjacency (relax_loop adjacency.length fuel m) := by
  intro fuel
  induction fuel with
  | zero => exact fun hm => hm
  | succ fuel ih =>
    intro m hm
    rw [relax_loop]
    split
    · exact hm
    · exact ih (relaxInv_relax_pass hm).1

theorem relax_loop_fix {adjacency : List (List Bool)} :
    ∀ (fuel : Nat) {m : List (List Int)}, RelaxInv adjacency m →
      msum m < fuel →
      relax_pass adjacency.length (relax_loop adjacency.length fuel m) =
        relax_loop adjacency.length fuel m := by
  intro fuel
  induction fuel with
  | zero => intro m _ hf; omega
  | succ fuel ih =>
    intro m hm hf
    rw [relax_loop]
    split
    · assumption
    · rename_i hne
      have hlt := foldl_ne_imp_lt hm (relax_triples_bounds) hne
      exact ih (relaxInv_relax_pass hm).1 (by
        unfold relax_pass
        omega)

theorem fix_triangle {adjacency : List (List Bool)} {mF : List (List Int)}
    (hInv : RelaxInv adjacency mF)
    (hfix : relax_pass adjacency.length mF = mF) :
    ∀ s d i : Nat, 1 ≤ s → s < adjacency.length → 1 ≤ d →
      d < adjacency.length → 1 ≤ i → i < adjacency.length → s ≠ d →
      dget mF s d ≤ dget mF s i + dget mF i d := by
  intro s d i hs1 hs2 hd1 hd2 hi1 hi2 hne
  have hmem := relax_triples_mem hs1 hs2 hd1 hd2 hi1 hi2 hne
  have hstep := foldl_fix hInv (relax_triples_bounds) hfix _ hmem
  by_contra hcon
  push_neg at hcon
  have hcond : dget mF s i + dget mF i d < dget mF s d := hcon
  have hnn1 := (hInv s i hs2 hi2).1
  have hnn2 := (hInv i d hi2 hd2).1
  have hbnd : 0 < dget mF s d := by omega
  obtain ⟨hrlen, hclen⟩ := dget_pos_bounds hbnd
  rw [show relax_triple mF (s, d, i) =
      dset mF s d (dget mF s i + dget mF i d) from by
    unfold relax_triple
    dsimp only
    rw [if_pos hcond]] at hstep
  have := congrArg (fun mm => dget mm s d) hstep
  dsimp only at this
  rw [dget_dset_self _ hrlen hclen] at this
  omega

theorem relax_triple_zero {m : List (List Int)} {t : Nat × Nat × Nat}
    (h1 : 1 ≤ t.1) (h2 : 1 ≤ t.2.1) (r c : Nat) (hrc : r = 0 ∨ c = 0) :
    dget (relax_triple m t) r c = dget m r c := by
  obtain ⟨s, d, i⟩ := t
  dsimp only at h1 h2
  unfold relax_triple
  dsimp only
  split
  · apply dget_dset_ne
    rcases hrc with rfl | rfl
    · exact Or.inl (by omega)
    · exact Or.inr (by omega)
  · rfl

theorem relax_pass_zero {dim : Nat} {m : List (List Int)} (r c : Nat)
    (hrc : r = 0 ∨ c = 0) :
    dget (relax_pass dim m) r c = dget m r c := by
  unfold relax_pass
  have hgen : ∀ (ts : List (Nat × Nat × Nat)) (m : List (List Int)),
      (∀ t ∈ ts, 1 ≤ t.1 ∧ 1 ≤ t.2.1) →
      dget (ts.foldl relax_triple m) r c = dget m r c := by
    intro ts
    induction ts with
    | nil => intro m _; rfl
    | cons t rest ih =>
      intro m hts
      rw [List.foldl_cons]
      rw [ih _ (fun u hu => hts u (List.mem_cons_of_mem t hu))]
      exact relax_triple_zero (hts t (List.mem_cons_self t rest)).1
        (hts t (List.mem_cons_self t rest)).2 r c hrc
  apply hgen
  intro t ht
  have := mem_relax_triples ht
  exact ⟨this.1, this.2.2.1⟩

theorem relax_loop_zero {dim : Nat} :
    ∀ (fuel : Nat) (m : List (List Int)) (r c : Nat), (r = 0 ∨ c = 0) →
      dget (relax_loop dim fuel m) r c = dget m r c := by
  intro fuel
  induction fuel with
  | zero => intro m r c _; rfl
  | succ fuel ih =>
    intro m r c hrc
    rw [relax_loop]
    split
    · rfl
    · rw [ih _ r c hrc, relax_pass_zero r c hrc]

theorem no_walk_to_zero {adjacency : List (List Bool)}
    (h0 : ∀ j, j < adjacency.length → has_edge adjacency j 0 = false) :
    ∀ (n b : Nat), 1 ≤ b → has_walk adjacency n b 0 = false := by
  intro n
  induction n with
  | zero =>
    intro b hb
    rw [has_walk]
    simp
    omega
  | succ n ih =>
    intro b hb
    rw [has_walk]
    simp only [List.any_eq_false, Bool.and_eq_true, not_and]
    intro b' hb' he
    simp only [List.mem_range] at hb'
    by_cases hz : b' = 0
    · subst hz
      by_cases hblen : b < adjacency.length
      · rw [h0 b hblen] at he
        simp at he
      · exfalso
        have hrow : adjacency.getD b ([] : List Bool) = [] := by
          rw [List.getD_eq_getElem?_getD,
            List.getElem?_eq_none (show adjacency.length ≤ b by omega)]
          rfl
        have : has_edge adjacency b 0 = false := by
          unfold has_edge
          rw [hrow]
          rfl
        rw [this] at he
        simp at he
    · rw [ih b' (by omega)]
      simp

theorem no_walk_from_zero {adjacency : List (List Bool)}
    (h0 : ∀ j, j < adjacency.length → has_edge adjacency 0 j = false)
    (c : Nat) (hc : c ≠ 0) : ∀ n : Nat, has_walk adjacency n 0 c = false := by
  intro n
  cases n with
  | zero =>
    rw [has_walk]
    simpa using fun hh => hc hh.symm
  | succ n =>
    rw [has_walk]
    simp only [List.any_eq_false, Bool.and_eq_true, not_and]
    intro b hb he
    simp only [List.mem_range] at hb
    rw [h0 b hb] at he
    simp at he

theorem adjacency_to_distance_eq (adjacency : List (List Bool)) :
    adjacency_to_distance adjacency =
      relax_loop adjacency.length (matrix_fuel (initial_distance adjacency))
        (initial_distance adjacency) := rfl

theorem dget_initial {adjacency : List (List Bool)} {r c : Nat}
    (hr : r < adjacency.length) (hc : c < adjacency.length) :
    dget (initial_distance adjacency) r c =
      if r = c then 0
      else if (adjacency.getD r []).getD c false then 1 else 999 := by
  have hrow : (initial_distance adjacency).getD r [] =
      List.map (fun c => if r = c then 0
        else if (adjacency.getD r []).getD c false then 1 else 999)
        (List.range adjacency.length) := by
    unfold initial_distance
    dsimp only
    rw [List.getD_eq_getElem _ _ (by simpa using hr), List.getElem_map,
      List.getElem_range]
  rw [dget, hrow, List.getD_eq_getElem _ _ (by simpa using hc),
    List.getElem_map, List.getElem_range]

theorem walk_lower {adjacency : List (List Bool)} {mF : List (List Int)}
    (hInv : RelaxInv adjacency mF)
    (htri : ∀ s d i : Nat, 1 ≤ s → s < adjacency.length → 1 ≤ d →
      d < adjacency.length → 1 ≤ i → i < adjacency.length → s ≠ d →
      dget mF s d ≤ dget mF s i + dget mF i d)
    (h0 : ∀ j, j < adjacency.length →
      has_edge adjacency 0 j = false ∧ has_edge adjacency j 0 = false) :
    ∀ (n a c : Nat), 1 ≤ a → a < adjacency.length → c < adjacency.length →
      has_walk adjacency n a c = true → dget mF a c ≤ (n : Int) := by
  intro n
  induction n with
  | zero =>
    intro a c _ ha2 hc2 hw
    rw [has_walk] at hw
    simp at hw
    subst hw
    rw [(hInv a a ha2 ha2).2.2.1 rfl]
    norm_num
  | succ n ih =>
    intro a c ha1 ha2 hc2 hw
    rw [has_walk] at hw
    simp only [List.any_eq_true, Bool.and_eq_true] at hw
    obtain ⟨b, hb, he, hwrest⟩ := hw
    simp only [List.mem_range] at hb
    have hb1 : 1 ≤ b := by
      by_contra hb0
      have : b = 0 := by omega
      subst this
      rw [(h0 a ha2).2] at he
      exact absurd he (by simp)
    by_cases hac : a = c
    · subst hac
      rw [(hInv a a ha2 ha2).2.2.1 rfl]
      push_cast
      omega
    · by_cases hc0 : c = 0
      · subst hc0
        rw [no_walk_to_zero (fun j hj => (h0 j hj).2) n b hb1] at hwrest
        exact absurd hwrest (by simp)
      · have hIH := ih b c hb1 hb hc2 hwrest
        have hedge := (hInv a b ha2 hb).2.2.2.1 (by simpa [has_edge] using he)
        have htriangle := htri a c b ha1 ha2 (by omega) hc2 hb1 hb hac
        push_cast
        omega

/-- C3 (amended): on any adjacency matrix with no edges at index 0 (boards
whose room ids are all positive, as index 0 is skipped by the relaxation
loops), `adjacency_to_distance` computes the exact all-pairs shortest-path
distance capped at the sentinel 999: each entry is nonnegative, at most the
sentinel, zero exactly on the diagonal reachability-wise, realized by a walk
when below the sentinel, a lower bound on every walk length, and the whole
matrix satisfies the triangle inequality. -/
theorem c3_distance_exact_capped (adjacency : List (List Bool))
    (h0 : ∀ j, j < adjacency.length →
      has_edge adjacency 0 j = false ∧ has_edge adjacency j 0 = false) :
    ∀ a, a < adjacency.length → ∀ c, c < adjacency.length →
      is_exact_capped_distance adjacency a c
        (dget (adjacency_to_distance adjacency) a c) ∧
      ∀ b, b < adjacency.length →
        dget (adjacency_to_distance adjacency) a c ≤
          dget (adjacency_to_distance adjacency) a b +
            dget (adjacency_to_distance adjacency) b c := by
  have hInv0 := relaxInv_initial adjacency
  have hInvD : RelaxInv adjacency (adjacency_to_distance adjacency) := by
    rw [adjacency_to_distance_eq]
    exact relax_loop_inv _ hInv0
  have hfixD : relax_pass adjacency.length (adjacency_to_distance adjacency) =
      adjacency_to_distance adjacency := by
    rw [adjacency_to_distance_eq]
    exact relax_loop_fix _ hInv0 (by rw [matrix_fuel_eq]; omega)
  have htri := fix_triangle hInvD hfixD
  have hzero : ∀ r c : Nat, (r = 0 ∨ c = 0) →
      dget (adjacency_to_distance adjacency) r c =
        dget (initial_distance adjacency) r c := by
    intro r c hrc
    rw [adjacency_to_distance_eq]
    exact relax_loop_zero _ _ r c hrc
  intro a ha c hc
  constructor
  · by_cases hac : a = c
    · subst hac
      have hdiag := (hInvD a a ha ha).2.2.1 rfl
      rw [hdiag]
      refine ⟨le_refl 0, by norm_num, fun _ => rfl, fun _ =>
        ⟨0, by simp, by rw [has_walk]; simp⟩, fun n hwn => by positivity⟩
    · by_cases ha0 : a = 0
      · subst ha0
        have hval : dget (adjacency_to_distance adjacency) 0 c = 999 := by
          rw [hzero 0 c (Or.inl rfl), dget_initial ha hc, if_neg hac,
            if_neg (by simpa [has_edge] using (h0 c hc).1)]
        rw [hval]
        refine ⟨by norm_num, le_refl _, fun hh => absurd hh hac,
          fun hh => by norm_num at hh, fun n hwn => ?_⟩
        rw [no_walk_from_zero (fun j hj => (h0 j hj).1) c
          (fun hh => hac hh.symm) n] at hwn
        exact absurd hwn (by simp)
      · by_cases hc0 : c = 0
        · subst hc0
          have hval : dget (adjacency_to_distance adjacency) a 0 = 999 := by
            rw [hzero a 0 (Or.inr rfl), dget_initial ha hc, if_neg hac,
              if_neg (by simpa [has_edge] using (h0 a ha).2)]
          rw [hval]
          refine ⟨by norm_num, le_refl _, fun hh => absurd hh hac,
            fun hh => by norm_num at hh, fun n hwn => ?_⟩
          rw [no_walk_to_zero (fun j hj => (h0 j hj).2) n a (by omega)] at hwn
          exact absurd hwn (by simp)
        · have hminv := hInvD a c ha hc
          exact ⟨hminv.1, hminv.2.1, fun hh => absurd hh hac, hminv.2.2.2.2,
            fun n hwn => walk_lower hInvD htri h0 n a c (by omega) ha hc hwn⟩
  · intro b hb
    have hnn_ab := (hInvD a b ha hb).1
    have hnn_bc := (hInvD b c hb hc).1
    have hle_ac := (hInvD a c ha hc).2.1
    by_cases hac : a = c
    · subst hac
      rw [(hInvD a a ha ha).2.2.1 rfl]
      omega
    · by_cases hb0 : b = 0
      · subst hb0
        by_cases ha0 : a = 0
        · subst ha0
          rw [(hInvD 0 0 ha ha).2.2.1 rfl]
          omega
        · have hval : dget (adjacency_to_distance adjacency) a 0 = 999 := by
            rw [hzero a 0 (Or.inr rfl), dget_initial ha hb, if_neg ha0,
              if_neg (by simpa [has_edge] using (h0 a ha).2)]
          rw [hval]
          omega
      · by_cases ha0 : a = 0
        · subst ha0
          have hcz : c ≠ 0 := fun hh => hac hh.symm
          have hval1 : dget (adjacency_to_distance adjacency) 0 c = 999 := by
            rw [hzero 0 c (Or.inl rfl), dget_initial ha hc, if_neg hac,
              if_neg (by simpa [has_edge] using (h0 c hc).1)]
          have hval2 : dget (adjacency_to_distance adjacency) 0 b = 999 := by
            rw [hzero 0 b (Or.inl rfl), dget_initial ha hb,
              if_neg (by omega), if_neg (by simpa [has_edge] using (h0 b hb).1)]
          rw [hval1, hval2]
          omega
        · by_cases hc0 : c = 0
          · subst hc0
            have hval1 : dget (adjacency_to_distance adjacency) a 0 = 999 := by
              rw [hzero a 0 (Or.inr rfl), dget_initial ha hc, if_neg hac,
                if_neg (by simpa [has_edge] using (h0 a ha).2)]
            have hval2 : dget (adjacency_to_distance adjacency) b 0 = 999 := by
              rw [hzero b 0 (Or.inr rfl), dget_initial hb hc,
                if_neg hb0, if_neg (by simpa [has_edge] using (h0 b hb).2)]
            rw [hval1, hval2]
            omega
          · exact htri a c b (by omega) ha (by omega) hc (by omega) hb hac

/-- C3 counterexample: a board containing room id 0 (a path 0 - 1 - 2).  The
relaxation loops skip index 0, so the computed distance from room 0 to room 2
stays at the infinite sentinel although a walk of length 2 exists, and the
triangle inequality fails through room 1. -/
theorem c3_counterexample_room_zero :
    dget room_zero_board.distance 0 2 = 999 ∧
    has_walk room_zero_board.adjacency 2 0 2 = true ∧
    ¬ (dget room_zero_board.distance 0 2 ≤
        dget room_zero_board.distance 0 1 + dget room_zero_board.distance 1 2) := by
  refine ⟨by decide, by decide, by decide⟩

/-- C3 witness: the amended exactness theorem applied to the six-room cycle
board, whose room ids are 1-6 (index 0 carries no edges), at the concrete
pair of rooms 1 and 4 with intermediate room 3. -/
theorem c3_witness :
    is_exact_capped_distance cycle6_board.adjacency 1 4
      (dget (adjacency_to_distance cycle6_board.adjacency) 1 4) ∧
    dget (adjacency_to_distance cycle6_board.adjacency) 1 4 ≤
      dget (adjacency_to_distance cycle6_board.adjacency) 1 3 +
        dget (adjacency_to_distance cycle6_board.adjacency) 3 4 :=
  ⟨(c3_distance_exact_capped cycle6_board.adjacency (by decide) 1 (by decide)
      4 (by decide)).1,
   (c3_distance_exact_capped cycle6_board.adjacency (by decide) 1 (by decide)
      4 (by decide)).2 3 (by decide)⟩

theorem le_foldr_max (a : Fl) (ws : List Fl) : a ≤ ws.foldr max a := by
  induction ws with
  | nil => exact le_refl a
  | cons w ws ih => exact le_trans ih (le_max_right w _)

theorem mem_le_foldr_max {w : Fl} {ws : List Fl} (h : w ∈ ws) (a : Fl) :
    w ≤ ws.foldr max a := by
  induction ws with
  | nil => simp at h
  | cons x ws ih =>
    rcases List.mem_cons.1 h with rfl | hmem
    · exact le_max_left w _
    · exact le_trans (ih hmem) (le_max_right x _)

theorem foldr_max_mono {a b : Fl} (h : a ≤ b) (ws : List Fl) :
    ws.foldr max a ≤ ws.foldr max b := by
  induction ws with
  | nil => exact h
  | cons w ws ih => exact max_le_max (le_refl w) ih

theorem foldr_max_le {a c : Fl} (ha : a ≤ c) {ws : List Fl}
    (hws : ∀ w ∈ ws, w ≤ c) : ws.foldr max a ≤ c := by
  induction ws with
  | nil => exact ha
  | cons w ws ih =>
    exact max_le (hws w (List.mem_cons_self w ws))
      (ih (fun x hx => hws x (List.mem_cons_of_mem w hx)))

theorem foldr_max_extract (a b : Fl) (ws : List Fl) :
    ws.foldr max (max a b) = max b (ws.foldr max a) := by
  induction ws with
  | nil => exact max_comm a b
  | cons w ws ih =>
    show max w (ws.foldr max (max a b)) = max b (max w (ws.foldr max a))
    rw [ih, max_left_comm]

theorem foldr_max_perm {ws1 ws2 : List Fl} (h : ws1.Perm ws2) (a : Fl) :
    ws1.foldr max a = ws2.foldr max a := by
  induction h with
  | nil => rfl
  | cons x _ ih => simp only [List.foldr_cons, ih]
  | swap x y l =>
    show max y (max x _) = max x (max y _)
    rw [max_left_comm]
  | trans _ _ ih1 ih2 => rw [ih1, ih2]

theorem insert_sorted_perm {α : Type} (le : α → α → Bool) (x : α)
    (l : List α) : (insert_sorted le x l).Perm (x :: l) := by
  induction l with
  | nil => exact List.Perm.refl _
  | cons y ys ih =>
    rw [insert_sorted]
    split
    · exact List.Perm.trans (List.Perm.cons y ih) (List.Perm.swap x y ys)
    · exact List.Perm.refl _

theorem stable_sort_perm {α : Type} (le : α → α → Bool) (l : List α) :
    (stable_sort le l).Perm l := by
  have hgen : ∀ (l acc : List α),
      (l.foldl (fun acc x => insert_sorted le x acc) acc).Perm (l ++ acc) := by
    intro l
    induction l with
    | nil => intro acc; exact List.Perm.refl _
    | cons x xs ih =>
      intro acc
      rw [List.foldl_cons]
      refine List.Perm.trans (ih _) ?_
      refine List.Perm.trans (List.Perm.append_left xs (insert_sorted_perm le x acc)) ?_
      exact List.perm_middle
  have := hgen l []
  simpa using this

theorem failSoft_refl (v lo hi : Fl) : FailSoft v v lo hi :=
  ⟨fun _ => le_refl v, fun _ => le_refl v, fun _ _ => rfl⟩

theorem failSoft_neg {r v lo hi : Fl}
    (h : FailSoft r v (Fl.neg hi) (Fl.neg lo)) :
    FailSoft (Fl.neg r) (Fl.neg v) lo hi := by
  obtain ⟨h1, h2, h3⟩ := h
  refine ⟨fun hh => ?_, fun hh => ?_, fun hh1 hh2 => ?_⟩
  · have h' : Fl.neg lo ≤ r := by
      rw [← Fl.neg_neg r]
      exact Fl.neg_le_neg_iff.2 hh
    exact Fl.neg_le_neg_iff.2 (h2 h')
  · have h' : r ≤ Fl.neg hi := by
      rw [← Fl.neg_neg r]
      exact Fl.neg_le_neg_iff.2 hh
    exact Fl.neg_le_neg_iff.2 (h1 h')
  · have hr2 : Fl.neg hi < r := by
      rw [← Fl.neg_neg r]
      exact Fl.neg_lt_neg_iff.2 hh2
    have hr1 : r < Fl.neg lo := by
      rw [← Fl.neg_neg r]
      exact Fl.neg_lt_neg_iff.2 hh1
    rw [h3 hr2 hr1]

theorem spec_go_appraisal {σ τ : Type} (G : GameIfc σ τ)
    (recur : σ → AppraisedPlayerTurn τ σ × Nat) (curr : Int) :
    ∀ (cs : List σ) (best : AppraisedPlayerTurn τ σ) (n : Nat),
      (minimax_two_players_spec_go G recur curr cs best n).1.appraisal =
        (cs.map (fun ch =>
          child_value G curr (recur ch).1.appraisal ch)).foldr max
          best.appraisal := by
  intro cs
  induction cs with
  | nil => intro best n; rfl
  | cons ch rest ih =>
    intro best n
    rw [minimax_two_players_spec_go]
    dsimp only
    rw [List.map_cons, List.foldr_cons, ← foldr_max_extract]
    by_cases hc : curr = G.current_player_id ch
    · rw [if_pos hc]
      by_cases hlt : best.appraisal < (recur ch).1.appraisal
      · rw [if_pos hlt, ih]
        congr 1
        dsimp only
        rw [child_value, if_pos hc, max_eq_right (le_of_lt hlt)]
      · rw [if_neg hlt, ih]
        congr 1
        rw [child_value, if_pos hc, max_eq_left (not_lt.1 hlt)]
    · rw [if_neg hc]
      dsimp only
      by_cases hlt : best.appraisal < Fl.neg (recur ch).1.appraisal
      · rw [if_pos hlt, ih]
        congr 1
        dsimp only
        rw [child_value, if_neg hc, max_eq_right (le_of_lt hlt)]
      · rw [if_neg hlt, ih]
        congr 1
        rw [child_value, if_neg hc, max_eq_left (not_lt.1 hlt)]

theorem spec_appraisal_eq_mval {σ τ : Type} (G : GameIfc σ τ) :
    ∀ (L : Nat) (s : σ),
      (minimax_two_players_spec G L s).1.appraisal = minimax_value G L s := by
  intro L
  induction L with
  | zero => intro s; rfl
  | succ L ih =>
    intro s
    rw [minimax_two_players_spec, minimax_value]
    split
    · rfl
    · dsimp only
      rw [spec_go_appraisal]
      show _ = (((G.possible_turns s).map (G.after_turn s)).map _).foldr max Fl.negInf
      congr 1
      apply List.map_congr_left
      intro ch _
      rw [ih]

theorem neg_BETA : Fl.neg BETA_INITIAL = ALPHA_INITIAL := rfl

theorem neg_ALPHA : Fl.neg ALPHA_INITIAL = BETA_INITIAL := by
  show Fl.fin (-(-f64MAX)) = Fl.fin f64MAX
  rw [neg_neg]

theorem ALPHA_lt_BETA : ALPHA_INITIAL < BETA_INITIAL := by
  show Fl.fin (-f64MAX) < Fl.fin f64MAX
  have h : (0:ℚ) < f64MAX := by
    rw [f64MAX]
    positivity
  rw [show ∀ a b : Fl, (a < b) = (a ≤ b ∧ ¬ b ≤ a) from fun a b =>
    propext lt_iff_le_not_le]
  constructor
  · show (-f64MAX : ℚ) ≤ f64MAX
    linarith
  · show ¬ (Fl.fin f64MAX ≤ Fl.fin (-f64MAX))
    rw [Fl.fin_le_fin]
    push_neg
    linarith

theorem mval_range {σ τ : Type} (G : GameIfc σ τ)
    (Hbnd : ∀ (s : σ) (pid : Int), ALPHA_INITIAL ≤ G.heuristic_score s pid ∧
      G.heuristic_score s pid ≤ BETA_INITIAL)
    (Hne : ∀ s : σ, G.has_winner s = false → G.possible_turns s ≠ []) :
    ∀ (L : Nat) (s : σ), ALPHA_INITIAL ≤ minimax_value G L s ∧
      minimax_value G L s ≤ BETA_INITIAL := by
  intro L
  induction L with
  | zero => intro s; exact Hbnd s _
  | succ L ih =>
    intro s
    rw [minimax_value]
    split
    · exact Hbnd s _
    · rename_i hwin
      have hchild : ∀ ch, ALPHA_INITIAL ≤
          child_value G (G.current_player_id s) (minimax_value G L ch) ch ∧
          child_value G (G.current_player_id s) (minimax_value G L ch) ch ≤
            BETA_INITIAL := by
        intro ch
        rw [child_value]
        split
        · exact ih ch
        · constructor
          · rw [← neg_BETA]
            exact Fl.neg_le_neg_iff.2 (ih ch).2
          · rw [← neg_ALPHA]
            exact Fl.neg_le_neg_iff.2 (ih ch).1
      have hnonempty : (G.possible_turns s).map (G.after_turn s) ≠ [] := by
        intro hh
        exact Hne s (by simpa using hwin) (by simpa using hh)
      constructor
      · obtain ⟨ch, hch⟩ := List.exists_mem_of_ne_nil _ hnonempty
        refine le_trans (hchild ch).1 (mem_le_foldr_max ?_ _)
        exact List.mem_map_of_mem _ hch
      · apply foldr_max_le (Fl.negInf_le _)
        intro w hw
        simp only [List.mem_map] at hw
        obtain ⟨ch, _, rfl⟩ := hw
        exact (hchild ch).2

theorem go_failsoft {σ τ : Type} (G : GameIfc σ τ)
    (recur : σ → Fl → Fl → AppraisedPlayerTurn τ σ × Nat)
    (curr : Int) (v : σ → Fl) (β α₀ : Fl) :
    ∀ (cs : List σ) (best : AppraisedPlayerTurn τ σ) (α : Fl) (n : Nat),
      (∀ ch ∈ cs, ∀ cα cβ : Fl, cα < cβ →
        FailSoft (recur ch cα cβ).1.appraisal (v ch) cα cβ) →
      α = max α₀ best.appraisal → α < β →
      best.appraisal ≤
        (find_best_turn_two_players_go G false recur curr β cs best α n).1.appraisal ∧
      FailSoft
        (find_best_turn_two_players_go G false recur curr β cs best α n).1.appraisal
        ((cs.map (fun ch => child_value G curr (v ch) ch)).foldr max
          best.appraisal) α₀ β := by
  intro cs
  induction cs with
  | nil =>
    intro best α n _ _ _
    exact ⟨le_refl _, failSoft_refl _ _ _⟩
  | cons ch rest ih =>
    intro best α n hIH hinv hαβ
    have hα₀ : α₀ ≤ α := hinv ▸ le_max_left _ _
    have hIHrest := fun c hc => hIH c (List.mem_cons_of_mem ch hc)
    rw [find_best_turn_two_players_go]
    dsimp only
    simp only [decide_eq_true_eq, List.map_cons, List.foldr_cons,
      Bool.false_eq_true, if_false]
    by_cases hc : curr = G.current_player_id ch
    case pos =>
      simp only [if_pos hc]
      set h := (recur ch α β).1.appraisal with hhdef
      have hch : FailSoft h (v ch) α β := hIH ch (List.mem_cons_self ch rest) α β hαβ
      have hw : child_value G curr (v ch) ch = v ch := by
        rw [child_value, if_pos hc]
      rw [hw]
      by_cases h1 : best.appraisal < h
      · rw [if_pos h1]
        by_cases h2 : α < h
        · rw [if_pos h2]
          by_cases h3 : β ≤ h
          · rw [if_pos h3]
            refine ⟨le_of_lt h1, fun hh => absurd hh (not_le.2 (lt_of_le_of_lt hα₀ h2)),
              fun _ => ?_, fun _ hh => absurd hh (not_lt.2 h3)⟩
            have hwle := hch.2.1 h3
            exact le_trans hwle (le_trans (le_max_left _ _) (le_refl _))
          · rw [if_neg h3]
            have hhw : h = v ch := hch.2.2 h2 (not_le.1 h3)
            have hmaxb : max best.appraisal h = h := max_eq_right (le_of_lt h1)
            obtain ⟨hge, hfs⟩ := ih ⟨h, G.prev_turn ch, (recur ch α β).1.ending_state⟩ h
              (n + (recur ch α β).2)
              hIHrest (by
                dsimp only
                rw [max_eq_right (le_of_lt (lt_of_le_of_lt hα₀ h2))]) (not_le.1 h3)
            have hVS : (rest.map (fun c => child_value G curr (v c) c)).foldr max h =
                max (v ch) ((rest.map (fun c => child_value G curr (v c) c)).foldr max
                  best.appraisal) := by
              conv_lhs => rw [← hmaxb]
              rw [foldr_max_extract, hhw]
            constructor
            · exact le_trans (le_of_lt h1) hge
            · rw [← hVS]
              exact hfs
        · rw [if_neg h2]
          have hle : h ≤ α := not_lt.1 h2
          have hwh : v ch ≤ h := hch.1 hle
          have hinv' : α = max α₀ h := by
            apply le_antisymm
            · calc α = max α₀ best.appraisal := hinv
                _ ≤ max α₀ h := max_le_max (le_refl _) (le_of_lt h1)
            · exact max_le hα₀ hle
          obtain ⟨hge, hfs1, hfs2, hfs3⟩ := ih ⟨h, G.prev_turn ch, (recur ch α β).1.ending_state⟩ α
            (n + (recur ch α β).2) hIHrest hinv' hαβ
          dsimp only at hge hfs1 hfs2 hfs3
          set X := (rest.map (fun c => child_value G curr (v c) c)).foldr max
            best.appraisal with hXdef
          have hVS'' : (rest.map (fun c => child_value G curr (v c) c)).foldr max h =
              max h X := by
            rw [hXdef, ← foldr_max_extract, max_eq_right (le_of_lt h1)]
          rw [hVS''] at hfs1 hfs2 hfs3
          set r := (find_best_turn_two_players_go G false recur curr β rest
            ⟨h, G.prev_turn ch, (recur ch α β).1.ending_state⟩ α
            (n + (recur ch α β).2)).1.appraisal with hrdef
          refine ⟨le_trans (le_of_lt h1) hge, fun hh => ?_, fun hh => ?_,
            fun hh1 hh2 => ?_⟩
          · have hX : max h X ≤ r := hfs1 hh
            exact max_le (le_trans hwh (le_trans (le_max_left h X) hX))
              (le_trans (le_max_right h X) hX)
          · have hr : r ≤ max h X := hfs2 hh
            have hhr : h < r := lt_of_le_of_lt hle (lt_of_lt_of_le hαβ hh)
            rcases le_max_iff.1 hr with hcase | hcase
            · exact absurd hcase (not_le.2 hhr)
            · exact le_trans hcase (le_max_right _ _)
          · have hreq : r = max h X := hfs3 hh1 hh2
            rcases max_cases h X with ⟨hm, hXh⟩ | ⟨hm, _⟩
            · exfalso
              rw [hm] at hreq
              have : r ≤ α := hreq ▸ hle
              rw [hinv] at this
              rcases le_max_iff.1 this with hcase | hcase
              · exact absurd hh1 (not_lt.2 hcase)
              · have : best.appraisal < r := lt_of_lt_of_le h1 (hreq ▸ le_refl h)
                exact absurd hcase (not_le.2 this)
            · rw [hm] at hreq
              rw [hreq]
              exact (max_eq_right (le_trans hwh (hm ▸ le_max_left h X))).symm
      · rw [if_neg h1]
        have hbh : h ≤ best.appraisal := not_lt.1 h1
        have hwh : v ch ≤ h :=
          hch.1 (le_trans hbh (hinv ▸ le_max_right _ _))
        obtain ⟨hge, hfs1, hfs2, hfs3⟩ := ih best α (n + (recur ch α β).2)
          hIHrest hinv hαβ
        set X := (rest.map (fun c => child_value G curr (v c) c)).foldr max
          best.appraisal with hXdef
        have hwX : v ch ≤ X :=
          le_trans hwh (le_trans hbh (le_foldr_max _ _))
        refine ⟨hge, fun hh => ?_, fun hh => ?_, fun hh1 hh2 => ?_⟩
        · exact max_le (le_trans hwX (hfs1 hh)) (hfs1 hh)
        · exact le_trans (hfs2 hh) (le_max_right _ _)
        · rw [hfs3 hh1 hh2]
          exact (max_eq_right hwX).symm
    case neg =>
      simp only [if_neg hc]
      set h := Fl.neg (recur ch (Fl.neg β) (Fl.neg α)).1.appraisal with hhdef
      have hwnd : Fl.neg β < Fl.neg α := Fl.neg_lt_neg_iff.2 hαβ
      have hch : FailSoft h (Fl.neg (v ch)) α β := by
        have hthis := hIH ch (List.mem_cons_self ch rest) (Fl.neg β) (Fl.neg α) hwnd
        exact @failSoft_neg _ _ α β hthis
      have hw : child_value G curr (v ch) ch = Fl.neg (v ch) := by
        rw [child_value, if_neg hc]
      rw [hw]
      by_cases h1 : best.appraisal < h
      · rw [if_pos h1]
        by_cases h2 : α < h
        · rw [if_pos h2]
          by_cases h3 : β ≤ h
          · rw [if_pos h3]
            refine ⟨le_of_lt h1, fun hh => absurd hh (not_le.2 (lt_of_le_of_lt hα₀ h2)),
              fun _ => ?_, fun _ hh => absurd hh (not_lt.2 h3)⟩
            have hwle := hch.2.1 h3
            exact le_trans hwle (le_max_left _ _)
          · rw [if_neg h3]
            have hhw : h = Fl.neg (v ch) := hch.2.2 h2 (not_le.1 h3)
            have hmaxb : max best.appraisal h = h := max_eq_right (le_of_lt h1)
            obtain ⟨hge, hfs⟩ := ih ⟨h, G.prev_turn ch, (recur ch (Fl.neg β) (Fl.neg α)).1.ending_state⟩ h
              (n + (recur ch (Fl.neg β) (Fl.neg α)).2)
              hIHrest (by
                dsimp only
                rw [max_eq_right (le_of_lt (lt_of_le_of_lt hα₀ h2))]) (not_le.1 h3)
            have hVS : (rest.map (fun c => child_value G curr (v c) c)).foldr max h =
                max (Fl.neg (v ch))
                  ((rest.map (fun c => child_value G curr (v c) c)).foldr max
                    best.appraisal) := by
              conv_lhs => rw [← hmaxb]
              rw [foldr_max_extract, hhw]
            constructor
            · exact le_trans (le_of_lt h1) hge
            · rw [← hVS]
              exact hfs
        · rw [if_neg h2]
          have hle : h ≤ α := not_lt.1 h2
          have hwh : Fl.neg (v ch) ≤ h := hch.1 hle
          have hinv' : α = max α₀ h := by
            apply le_antisymm
            · calc α = max α₀ best.appraisal := hinv
                _ ≤ max α₀ h := max_le_max (le_refl _) (le_of_lt h1)
            · exact max_le hα₀ hle
          obtain ⟨hge, hfs1, hfs2, hfs3⟩ := ih ⟨h, G.prev_turn ch, (recur ch (Fl.neg β) (Fl.neg α)).1.ending_state⟩ α
            (n + (recur ch (Fl.neg β) (Fl.neg α)).2) hIHrest hinv' hαβ
          dsimp only at hge hfs1 hfs2 hfs3
          set X := (rest.map (fun c => child_value G curr (v c) c)).foldr max
            best.appraisal with hXdef
          have hVS'' : (rest.map (fun c => child_value G curr (v c) c)).foldr max h =
              max h X := by
            rw [hXdef, ← foldr_max_extract, max_eq_right (le_of_lt h1)]
          rw [hVS''] at hfs1 hfs2 hfs3
          set r := (find_best_turn_two_players_go G false recur curr β rest
            ⟨h, G.prev_turn ch, (recur ch (Fl.neg β) (Fl.neg α)).1.ending_state⟩ α
            (n + (recur ch (Fl.neg β) (Fl.neg α)).2)).1.appraisal with hrdef
          refine ⟨le_trans (le_of_lt h1) hge, fun hh => ?_, fun hh => ?_,
            fun hh1 hh2 => ?_⟩
          · have hX : max h X ≤ r := hfs1 hh
            exact max_le (le_trans hwh (le_trans (le_max_left h X) hX))
              (le_trans (le_max_right h X) hX)
          · have hr : r ≤ max h X := hfs2 hh
            have hhr : h < r := lt_of_le_of_lt hle (lt_of_lt_of_le hαβ hh)
            rcases le_max_iff.1 hr with hcase | hcase
            · exact absurd hcase (not_le.2 hhr)
            · exact le_trans hcase (le_max_right _ _)
          · have hreq : r = max h X := hfs3 hh1 hh2
            rcases max_cases h X with ⟨hm, hXh⟩ | ⟨hm, _⟩
            · exfalso
              rw [hm] at hreq
              have : r ≤ α := hreq ▸ hle
              rw [hinv] at this
              rcases le_max_iff.1 this with hcase | hcase
              · exact absurd hh1 (not_lt.2 hcase)
              · have : best.appraisal < r := lt_of_lt_of_le h1 (hreq ▸ le_refl h)
                exact absurd hcase (not_le.2 this)
            · rw [hm] at hreq
              rw [hreq]
              exact (max_eq_right (le_trans hwh (hm ▸ le_max_left h X))).symm
      · rw [if_neg h1]
        have hbh : h ≤ best.appraisal := not_lt.1 h1
        have hwh : Fl.neg (v ch) ≤ h :=
          hch.1 (le_trans hbh (hinv ▸ le_max_right _ _))
        obtain ⟨hge, hfs1, hfs2, hfs3⟩ := ih best α
          (n + (recur ch (Fl.neg β) (Fl.neg α)).2) hIHrest hinv hαβ
        set X := (rest.map (fun c => child_value G curr (v c) c)).foldr max
          best.appraisal with hXdef
        have hwX : Fl.neg (v ch) ≤ X :=
          le_trans hwh (le_trans hbh (le_foldr_max _ _))
        refine ⟨hge, fun hh => ?_, fun hh => ?_, fun hh1 hh2 => ?_⟩
        · exact max_le (le_trans hwX (hfs1 hh)) (hfs1 hh)
        · exact le_trans (hfs2 hh) (le_max_right _ _)
        · rw [hfs3 hh1 hh2]
          exact (max_eq_right hwX).symm

theorem two_players_failsoft {σ τ : Type} (G : GameIfc σ τ) :
    ∀ (L : Nat) (s : σ) (α β : Fl), α < β →
      FailSoft (find_best_turn_two_players G false L s α β).1.appraisal
        (minimax_value G L s) α β := by
  intro L
  induction L with
  | zero => intro s α β _; exact failSoft_refl _ _ _
  | succ L ih =>
    intro s α β hαβ
    rw [find_best_turn_two_players, minimax_value]
    by_cases hwin : G.has_winner s
    · simp only [if_pos hwin]
      exact failSoft_refl _ _ _
    · simp only [if_neg hwin]
      have hmaxinit : α =
          max α (AppraisedPlayerTurn.empty_minimum : AppraisedPlayerTurn τ σ).appraisal := by
        show α = max α Fl.negInf
        rw [max_eq_left (Fl.negInf_le α)]
      have hgo := fun (cs : List σ)
          (hIH : ∀ ch ∈ cs, ∀ cα cβ : Fl, cα < cβ →
            FailSoft (find_best_turn_two_players G false L ch cα cβ).1.appraisal
              (minimax_value G L ch) cα cβ) =>
        go_failsoft G (fun ch ca cb => find_best_turn_two_players G false L ch ca cb)
          (G.current_player_id s) (minimax_value G L) β α cs
          AppraisedPlayerTurn.empty_minimum α 1 hIH hmaxinit hαβ
      split
      · rename_i hL
        have h := (hgo (stable_sort
            (child_sort_le G (G.current_player_id s))
            ((G.possible_turns s).map (G.after_turn s)))
          (fun ch _ cα cβ hw => ih ch cα cβ hw)).2
        have hperm : ((stable_sort (child_sort_le G (G.current_player_id s))
            ((G.possible_turns s).map (G.after_turn s))).map
              (fun ch => child_value G (G.current_player_id s)
                (minimax_value G L ch) ch)).Perm
            (((G.possible_turns s).map (G.after_turn s)).map
              (fun ch => child_value G (G.current_player_id s)
                (minimax_value G L ch) ch)) :=
          List.Perm.map _ (stable_sort_perm _ _)
        rw [foldr_max_perm hperm] at h
        exact h
      · have h := (hgo ((G.possible_turns s).map (G.after_turn s))
          (fun ch _ cα cβ hw => ih ch cα cβ hw)).2
        exact h

/-- C1 (amended): with the heuristic bounded by the initial window (as
`heuristic_score` is, every score lying in `[f64::MIN, f64::MAX]`) and
non-terminal states having at least one possible turn, the two-player
alpha-beta search at the initial window returns the same appraisal as the
unpruned minimax search at the same depth.  The chosen turn can differ when
several turns share the optimal appraisal (see the counterexample), so the
claim is amended from "same chosen move and appraisal" to "same appraisal". -/
theorem c1_alphabeta_appraisal_eq_minimax {σ τ : Type} (G : GameIfc σ τ)
    (Hbnd : ∀ (s : σ) (pid : Int), ALPHA_INITIAL ≤ G.heuristic_score s pid ∧
      G.heuristic_score s pid ≤ BETA_INITIAL)
    (Hne : ∀ s : σ, G.has_winner s = false → G.possible_turns s ≠ [])
    (L : Nat) (s : σ) :
    (find_best_turn_two_players G false L s ALPHA_INITIAL
        BETA_INITIAL).1.appraisal =
      (minimax_two_players_spec G L s).1.appraisal := by
  obtain ⟨h1, h2, h3⟩ :=
    two_players_failsoft G L s ALPHA_INITIAL BETA_INITIAL ALPHA_lt_BETA
  obtain ⟨hlo, hhi⟩ := mval_range G Hbnd Hne L s
  rw [spec_appraisal_eq_mval]
  by_cases hA : (find_best_turn_two_players G false L s ALPHA_INITIAL
      BETA_INITIAL).1.appraisal ≤ ALPHA_INITIAL
  · exact le_antisymm (le_trans hA hlo) (h1 hA)
  · by_cases hB : BETA_INITIAL ≤ (find_best_turn_two_players G false L s
        ALPHA_INITIAL BETA_INITIAL).1.appraisal
    · exact le_antisymm (h2 hB) (le_trans hhi hB)
    · exact h3 (not_le.1 hA) (not_le.1 hB)

/-- C1 witness: appraisal agreement between alpha-beta and minimax at depth 3
on a trivial two-player game with a constant in-range heuristic. -/
theorem c1_witness :
    (find_best_turn_two_players trivial_game false 3 () ALPHA_INITIAL
        BETA_INITIAL).1.appraisal =
      (minimax_two_players_spec trivial_game 3 ()).1.appraisal :=
  c1_alphabeta_appraisal_eq_minimax trivial_game
    (fun _ _ => ⟨show ALPHA_INITIAL ≤ Fl.fin 0 by decide,
      show Fl.fin 0 ≤ BETA_INITIAL by decide⟩)
    (fun _ _ => show ([()] : List Unit) ≠ [] by decide) 3 ()

/-- C1 counterexample to the claim as written: on a concrete 2-normal-player
state where several turns share the optimal appraisal, the alpha-beta search
(with its heuristic pre-sorting at depth 2) picks a different turn than the
unpruned minimax search, which keeps the first generated turn. -/
theorem c1_counterexample_chosen_turn_differs :
    (find_best_turn_two_players (MGS_game 16) false 2 c1_state ALPHA_INITIAL
        BETA_INITIAL).1.turn = some (SimpleTurn.single 1 5) ∧
    (minimax_two_players_spec (MGS_game 16) 2 c1_state).1.turn =
      some (SimpleTurn.single 0 4) ∧
    (find_best_turn_two_players (MGS_game 16) false 2 c1_state ALPHA_INITIAL
        BETA_INITIAL).1.turn ≠
      (minimax_two_players_spec (MGS_game 16) 2 c1_state).1.turn := by
  refine ⟨by decide, by decide, by decide⟩

end KdlRust
